import Mathlib

/-!
Verification development for the mittu project-management ETL pipeline.

The Python sources (data_cleaning_script.py, join_data.py, data_processor.py)
are shallowly embedded below.  Python strings are modelled as `List Char`;
Python floats are modelled exactly as signed decimals `m / 10^e` (constructor
`PyFloat.dec`), plus `nan` and signed infinity.  Deliberate, documented
simplifications of the embedding:
  * `float` string parsing accepts sign, decimal digits with at most one dot,
    an optional decimal exponent, and the case-insensitive words nan / inf /
    infinity; numeric-literal underscores are not modelled.
  * decimal values are kept exact instead of being rounded to IEEE-754
    doubles, and `str()` of a finite float prints the exact decimal form
    (never scientific notation); `minutes / 60` truncates at 17 extra digits
    when the result is not a finite decimal.
  * `str.lower()` is modelled for ASCII and the Latin-1 letter range, and
    accent removal (NFD + drop combining marks) by a table of the Latin-1
    accented letters that actually decompose.
-/

namespace Mittu

/-- Python strings are modelled as lists of characters. -/
abbrev PyString := List Char

/-- Characters stripped by Python's default str.strip() (ASCII whitespace). -/
def pyWhitespace (c : Char) : Bool :=
  c = ' ' || c = '\t' || c = '\n' || c = '\r' || c = '\x0b' || c = '\x0c'

/-- str.lstrip(): drop leading whitespace. -/
def ltrim (s : PyString) : PyString := s.dropWhile pyWhitespace

/-- str.rstrip(): drop trailing whitespace. -/
def rtrim (s : PyString) : PyString := (s.reverse.dropWhile pyWhitespace).reverse

/-- str.strip(): drop whitespace at both ends. -/
def pyStrip (s : PyString) : PyString := ltrim (rtrim s)

/-- ASCII upper-to-lower case pairs. -/
def asciiLowerTable : List (Char × Char) :=
  [('A', 'a'), ('B', 'b'), ('C', 'c'), ('D', 'd'), ('E', 'e'), ('F', 'f'),
   ('G', 'g'), ('H', 'h'), ('I', 'i'), ('J', 'j'), ('K', 'k'), ('L', 'l'),
   ('M', 'm'), ('N', 'n'), ('O', 'o'), ('P', 'p'), ('Q', 'q'), ('R', 'r'),
   ('S', 's'), ('T', 't'), ('U', 'u'), ('V', 'v'), ('W', 'w'), ('X', 'x'),
   ('Y', 'y'), ('Z', 'z')]

/-- Latin-1 upper-to-lower case pairs (À–Þ except ×), as done by str.lower(). -/
def latin1LowerTable : List (Char × Char) :=
  [('À', 'à'), ('Á', 'á'), ('Â', 'â'), ('Ã', 'ã'), ('Ä', 'ä'), ('Å', 'å'),
   ('Æ', 'æ'), ('Ç', 'ç'), ('È', 'è'), ('É', 'é'), ('Ê', 'ê'), ('Ë', 'ë'),
   ('Ì', 'ì'), ('Í', 'í'), ('Î', 'î'), ('Ï', 'ï'), ('Ð', 'ð'), ('Ñ', 'ñ'),
   ('Ò', 'ò'), ('Ó', 'ó'), ('Ô', 'ô'), ('Õ', 'õ'), ('Ö', 'ö'), ('Ø', 'ø'),
   ('Ù', 'ù'), ('Ú', 'ú'), ('Û', 'û'), ('Ü', 'ü'), ('Ý', 'ý'), ('Þ', 'þ')]

/-- The combined case-folding table. -/
def lowerTable : List (Char × Char) := asciiLowerTable ++ latin1LowerTable

/-- Case folding of one character, per str.lower() on ASCII and Latin-1. -/
def pyLowerChar (c : Char) : Char :=
  (lowerTable.lookup c).getD c

/-- str.lower(). -/
def pyLower (s : PyString) : PyString := s.map pyLowerChar

/-- Accent-to-base pairs for the lower-case Latin-1 letters that decompose
under NFD (the composition remove_accents of str.lower() in
standardize_status only ever sees lower-cased input). -/
def deaccentTable : List (Char × Char) :=
  [('à', 'a'), ('á', 'a'), ('â', 'a'), ('ã', 'a'), ('ä', 'a'), ('å', 'a'),
   ('ç', 'c'), ('è', 'e'), ('é', 'e'), ('ê', 'e'), ('ë', 'e'), ('ì', 'i'),
   ('í', 'i'), ('î', 'i'), ('ï', 'i'), ('ñ', 'n'), ('ò', 'o'), ('ó', 'o'),
   ('ô', 'o'), ('õ', 'o'), ('ö', 'o'), ('ù', 'u'), ('ú', 'u'), ('û', 'u'),
   ('ü', 'u'), ('ý', 'y'), ('ÿ', 'y')]

/-- unicodedata.normalize('NFD', ·) followed by dropping combining marks,
modelled character-wise. -/
def deaccentChar (c : Char) : Char := (deaccentTable.lookup c).getD c

/-- remove_accents of data_cleaning_script.py (character-wise). -/
def removeAccents (s : PyString) : PyString := s.map deaccentChar

/-- str.replace(a, b) for single characters. -/
def mapChar (a b : Char) (s : PyString) : PyString :=
  s.map fun c => if c = a then b else c

/-- str.replace(a, '') for a single character. -/
def removeChar (a : Char) (s : PyString) : PyString := s.filter (· ≠ a)

/-- str.split(sep) for a single-character separator. -/
def splitOnChar (sep : Char) : PyString → List PyString
  | [] => [[]]
  | c :: t =>
    let r := splitOnChar sep t
    if c = sep then [] :: r
    else (c :: r.headI) :: r.tail

/-- Index (from the left) of the last occurrence of c, 0 when absent;
models str.rfind on strings known to contain c. -/
def lastPos (c : Char) (s : PyString) : ℕ :=
  (s.foldl (fun (st : ℕ × ℕ) ch => (st.1 + 1, if ch = c then st.1 else st.2)) (0, 0)).2

/-- Numeric value of a decimal digit character. -/
def digitVal (c : Char) : ℕ := c.toNat - 48

/-- Decidable test for an ASCII decimal digit. -/
def isDigitB (c : Char) : Bool := 48 ≤ c.toNat && c.toNat ≤ 57

/-- Value of a string of decimal digits read most-significant first. -/
def digitsToNat (ds : PyString) : ℕ := ds.foldl (fun a c => 10 * a + digitVal c) 0

/-- Decimal digit character for a value below ten. -/
def digitChar (n : ℕ) : Char :=
  match n with
  | 0 => '0' | 1 => '1' | 2 => '2' | 3 => '3' | 4 => '4'
  | 5 => '5' | 6 => '6' | 7 => '7' | 8 => '8' | _ => '9'

/-- Zero-padded k-digit decimal rendering of n (low digit last). -/
def natPad : ℕ → ℕ → PyString
  | 0, _ => []
  | k + 1, n => natPad k (n / 10) ++ [digitChar (n % 10)]

/-- Digits of n without leading zeros (fuel-based helper). -/
def natDigitsAux : ℕ → ℕ → PyString
  | 0, _ => []
  | fuel + 1, n => if n = 0 then [] else natDigitsAux fuel (n / 10) ++ [digitChar (n % 10)]

/-- Decimal rendering of a natural number, as Python str() of an int ≥ 0. -/
def natDigits (n : ℕ) : PyString := if n = 0 then ['0'] else natDigitsAux n n

/-- Decimal rendering of an integer, as Python str() of an int. -/
def intDigits (i : ℤ) : PyString :=
  if i < 0 then '-' :: natDigits i.natAbs else natDigits i.natAbs

/-- Python f-string {i:0wd} padding: left-pad with zeros to total width w,
the sign included in the width. -/
def intPad (w : ℕ) (i : ℤ) : PyString :=
  let ds := natDigits i.natAbs
  let sign : PyString := if i < 0 then ['-'] else []
  sign ++ List.replicate (w - (ds.length + sign.length)) '0' ++ ds

/-- Python float values, modelled exactly: `dec m e` denotes m / 10^e
(kept normalized: when e > 0, m is not divisible by 10), `nan` the quiet
NaN, `inf neg` the signed infinity. -/
inductive PyFloat where
  | dec (m : ℤ) (e : ℕ)
  | nan
  | inf (neg : Bool)
deriving DecidableEq

/-- Exact rational value of a finite float. -/
def PyFloat.toRat : PyFloat → Option ℚ
  | .dec m e => some ((m : ℚ) / 10 ^ e)
  | _ => Option.none

/-- Strip factors of ten into the exponent so that `dec` is normalized. -/
def normDec (m : ℤ) : ℕ → PyFloat
  | 0 => .dec m 0
  | e + 1 => if m % 10 = 0 then normDec (m / 10) e else .dec m (e + 1)

/-- Case-insensitive comparison against an ASCII lower-case word. -/
def eqCI (s : PyString) (w : PyString) : Bool :=
  pyLower s = w

/-- Split an optional leading sign from a numeric literal. -/
def readSign (s : PyString) : Bool × PyString :=
  match s with
  | [] => (false, [])
  | c :: t =>
    if c = '+' then (false, t)
    else if c = '-' then (true, t)
    else (false, c :: t)

/-- Apply a sign to an integer. -/
def applySign (neg : Bool) (n : ℤ) : ℤ := if neg then -n else n

/-- Scale a decimal mantissa/scale pair by 10^exp and normalize. -/
def scaleDec (m : ℤ) (e : ℕ) (exp : ℤ) : PyFloat :=
  let t : ℤ := (e : ℤ) - exp
  if t ≤ 0 then normDec (m * 10 ^ (-t).toNat) 0 else normDec m t.toNat

/-- The digits before the decimal point. -/
def bodyIntDigits (t : PyString) : PyString := t.takeWhile isDigitB

/-- The digits after the decimal point, when a point follows the integer
digits. -/
def bodyFracDigits (t : PyString) : PyString :=
  match t.dropWhile isDigitB with
  | '.' :: r2 => r2.takeWhile isDigitB
  | _ => []

/-- What remains after the mantissa. -/
def bodyRest (t : PyString) : PyString :=
  match t.dropWhile isDigitB with
  | '.' :: r2 => r2.dropWhile isDigitB
  | r1 => r1

/-- Parse an optional exponent suffix and build the value. -/
def pyFloatExp (m : ℤ) (e : ℕ) : PyString → Option PyFloat
  | [] => some (normDec m e)
  | c :: r3 =>
    if c = 'e' ∨ c = 'E' then
      if (readSign r3).2 ≠ [] ∧ (readSign r3).2.all isDigitB then
        some (scaleDec m e (applySign (readSign r3).1 (digitsToNat (readSign r3).2)))
      else Option.none
    else Option.none

/-- Parse the digits-dot-digits-exponent body of a float literal. -/
def pyFloatBody (neg : Bool) (t : PyString) : Option PyFloat :=
  if bodyIntDigits t = [] ∧ bodyFracDigits t = [] then Option.none
  else
    pyFloatExp
      (applySign neg (digitsToNat (bodyIntDigits t) * 10 ^ (bodyFracDigits t).length +
        digitsToNat (bodyFracDigits t)))
      (bodyFracDigits t).length (bodyRest t)

/-- The nan / inf / infinity words and the decimal body, after the sign. -/
def pyFloatSigned (neg : Bool) (t : PyString) : Option PyFloat :=
  if eqCI t ['n', 'a', 'n'] then some .nan
  else if eqCI t ['i', 'n', 'f'] ∨ eqCI t ['i', 'n', 'f', 'i', 'n', 'i', 't', 'y'] then
    some (.inf neg)
  else pyFloatBody neg t

/-- Python float(string): strips whitespace, reads an optional sign, accepts
nan / inf / infinity case-insensitively, else a decimal literal. -/
def pyFloat? (s : PyString) : Option PyFloat :=
  pyFloatSigned (readSign (pyStrip s)).1 (readSign (pyStrip s)).2

/-- Python int(string) after sign splitting. -/
def pyIntSigned (neg : Bool) (t : PyString) : Option ℤ :=
  if t ≠ [] ∧ t.all isDigitB then some (applySign neg (digitsToNat t)) else Option.none

/-- Python int(string): strips whitespace, optional sign, decimal digits. -/
def pyInt? (s : PyString) : Option ℤ :=
  pyIntSigned (readSign (pyStrip s)).1 (readSign (pyStrip s)).2

/-- Python str() of a float: exact decimal rendering (the embedding never
switches to scientific notation). -/
def pyStr : PyFloat → PyString
  | .nan => ['n', 'a', 'n']
  | .inf neg => if neg then ['-', 'i', 'n', 'f'] else ['i', 'n', 'f']
  | .dec m 0 => intDigits m ++ ['.', '0']
  | .dec m (e + 1) =>
    (if m < 0 then ['-'] else []) ++ natDigits (m.natAbs / 10 ^ (e + 1)) ++
      '.' :: natPad (e + 1) (m.natAbs % 10 ^ (e + 1))

/-- Python `x < (100 : int)` on a float, False for NaN. -/
def pyLt100 : PyFloat → Bool
  | .dec m e => m < 100 * 10 ^ e
  | .nan => false
  | .inf neg => neg

/-- Python min(100, x): keeps 100 unless x compares smaller (so NaN → 100). -/
def pyMin100 (x : PyFloat) : PyFloat := if pyLt100 x then x else .dec 100 0

/-- float.is_integer(): in normalized form, true exactly when the scale is 0. -/
def pyIsInteger : PyFloat → Bool
  | .dec _ 0 => true
  | _ => false

/-- Python int() truncation of a float known to be integral. -/
def pyToInt : PyFloat → ℤ
  | .dec m _ => m
  | _ => 0

/-- Python float addition (exact on decimals). -/
def pyAdd : PyFloat → PyFloat → PyFloat
  | .nan, _ => .nan
  | _, .nan => .nan
  | .inf a, .inf b => if a = b then .inf a else .nan
  | .inf a, .dec _ _ => .inf a
  | .dec _ _, .inf b => .inf b
  | .dec m1 e1, .dec m2 e2 =>
    let e := max e1 e2
    normDec (m1 * 10 ^ (e - e1) + m2 * 10 ^ (e - e2)) e

/-- Python x / 60 on a float: exact when the result is a finite decimal,
else truncated 17 digits past the scale (stands in for IEEE rounding). -/
def pyDiv60 : PyFloat → PyFloat
  | .nan => .nan
  | .inf a => .inf a
  | .dec m e =>
    if (m * 5) % 3 = 0 then normDec (m * 5 / 3) (e + 2)
    else normDec (m * 5 * 10 ^ 17 / 3) (e + 19)

/-- A pandas / Python cell value: a string, a float, or None. -/
inductive PyVal where
  | str (s : PyString)
  | num (x : PyFloat)
  | null
deriving DecidableEq

/-- pd.isna: true for None and NaN. -/
def pdIsna : PyVal → Bool
  | .null => true
  | .num .nan => true
  | _ => false

/-- Python str(value) on a cell. -/
def pyStrOf : PyVal → PyString
  | .str s => s
  | .num x => pyStr x
  | .null => ['N', 'o', 'n', 'e']

/-- The null-marker spellings recognized by the cleaners. -/
def nullSentinels : List PyString :=
  [['n', 'u', 'l', 'l'], ['n', 'o', 'n', 'e'], ['n', 'a', 'n'], ['n', '/', 'a']]

/-- The shared guard `pd.isna(v) or v == '' or str(v).lower() in [...]` used
by the normalizers of data_cleaning_script.py. -/
def isNullLike (v : PyVal) : Bool :=
  pdIsna v || v = .str [] || (pyLower (pyStrOf v)) ∈ nullSentinels

/-! ### standardize_date -/

/-- The separator characters accepted at positions 4 and 7 of the
YYYY-DD-MM heuristic in standardize_date. -/
def sepChar (c : Char) : Bool := c = '-' || c = '.' || c = '/'

/-- Drop the date separator characters from a slice, as the chained
.replace('-','').replace('.','').replace('/','') calls do. -/
def dropSeps (s : PyString) : PyString := s.filter (fun c => ¬ sepChar c)

/-- The special-case block of standardize_date: a 10-character string with
separators at positions 4 and 7 whose middle group exceeds 12 while the
last group is at most 12 is rewritten from YYYY-DD-MM to YYYY-MM-DD. -/
def dateHeuristicFix (s : PyString) : PyString :=
  match s with
  | [c0, c1, c2, c3, c4, c5, c6, c7, c8, c9] =>
    if sepChar c4 ∧ sepChar c7 then
      match pyInt? [c0, c1, c2, c3], pyInt? (dropSeps [c5, c6, c7]),
            pyInt? (dropSeps [c8, c9]) with
      | some y, some d, some m =>
        if 12 < d ∧ m ≤ 12 then
          intPad 4 y ++ '-' :: intPad 2 m ++ '-' :: intPad 2 d
        else [c0, c1, c2, c3, c4, c5, c6, c7, c8, c9]
      | _, _, _ => [c0, c1, c2, c3, c4, c5, c6, c7, c8, c9]
    else [c0, c1, c2, c3, c4, c5, c6, c7, c8, c9]
  | t => t

/-- Gregorian leap-year rule, as datetime uses. -/
def isLeap (y : ℕ) : Bool := y % 4 = 0 && (y % 100 ≠ 0 || y % 400 = 0)

/-- Number of days of month m in year y. -/
def daysInMonth (y m : ℕ) : ℕ :=
  match m with
  | 2 => if isLeap y then 29 else 28
  | 4 => 30 | 6 => 30 | 9 => 30 | 11 => 30
  | _ => 31

/-- strptime %d: one or two digits with value 1..31. -/
def parseDayField (p : PyString) : Option ℕ :=
  if p ≠ [] ∧ p.length ≤ 2 ∧ p.all isDigitB ∧ 1 ≤ digitsToNat p ∧ digitsToNat p ≤ 31
  then some (digitsToNat p) else Option.none

/-- strptime %m: one or two digits with value 1..12. -/
def parseMonthField (p : PyString) : Option ℕ :=
  if p ≠ [] ∧ p.length ≤ 2 ∧ p.all isDigitB ∧ 1 ≤ digitsToNat p ∧ digitsToNat p ≤ 12
  then some (digitsToNat p) else Option.none

/-- strptime %y: exactly two digits, with CPython's 69-pivot expansion. -/
def parseYear2Field (p : PyString) : Option ℕ :=
  if p.length = 2 ∧ p.all isDigitB then
    let v := digitsToNat p
    some (if v ≤ 68 then 2000 + v else 1900 + v)
  else Option.none

/-- strptime %Y: exactly four digits. -/
def parseYear4Field (p : PyString) : Option ℕ :=
  if p.length = 4 ∧ p.all isDigitB then some (digitsToNat p) else Option.none

/-- The date patterns standardize_date tries, in order. -/
inductive DateFmt where
  | dmy (sep : Char) (y4 : Bool)
  | ymd
deriving DecidableEq

/-- Combine the three parsed fields, with the calendar validity check
performed by datetime construction. -/
def strptimeFields : Option ℕ → Option ℕ → Option ℕ → Option (ℕ × ℕ × ℕ)
  | some d, some m, some y =>
    if d ≤ daysInMonth y m then some (y, m, d) else Option.none
  | _, _, _ => Option.none

/-- The day/month/year field layout of the %d-%m-%y style patterns. -/
def strptimeDMY (y4 : Bool) : List PyString → Option (ℕ × ℕ × ℕ)
  | [ds, ms, ys] =>
    strptimeFields (parseDayField ds) (parseMonthField ms)
      (if y4 then parseYear4Field ys else parseYear2Field ys)
  | _ => Option.none

/-- The year/month/day field layout of the %Y-%m-%d pattern. -/
def strptimeYMD : List PyString → Option (ℕ × ℕ × ℕ)
  | [ys, ms, ds] =>
    strptimeFields (parseDayField ds) (parseMonthField ms) (parseYear4Field ys)
  | _ => Option.none

/-- strptime against one of the seven patterns. -/
def strptime : DateFmt → PyString → Option (ℕ × ℕ × ℕ)
  | .dmy sep y4, s => strptimeDMY y4 (splitOnChar sep s)
  | .ymd, s => strptimeYMD (splitOnChar '-' s)

/-- The format list of standardize_date, two-digit-year variants first. -/
def dateFormats : List DateFmt :=
  [.dmy '/' false, .dmy '.' false, .dmy '-' false,
   .ymd, .dmy '/' true, .dmy '.' true, .dmy '-' true]

/-- Whether a format carries a two-digit year (%y). -/
def isTwoDigitFmt : DateFmt → Bool
  | .dmy _ y4 => ¬ y4
  | .ymd => false

/-- The (dead in practice) sub-century adjustment standardize_date applies
after parsing with a two-digit-year format. -/
def adjustCentury (fmt : DateFmt) (ymd : ℕ × ℕ × ℕ) : ℕ × ℕ × ℕ :=
  if isTwoDigitFmt fmt ∧ ymd.1 < 100 then
    (if ymd.1 < 50 then 2000 + ymd.1 else 1900 + ymd.1, ymd.2.1, ymd.2.2)
  else ymd

/-- Try the formats in order, first success wins. -/
def tryDateFormats : List DateFmt → PyString → Option (ℕ × ℕ × ℕ)
  | [], _ => Option.none
  | fmt :: rest, s =>
    match strptime fmt s with
    | some ymd => some (adjustCentury fmt ymd)
    | Option.none => tryDateFormats rest s

/-- strftime('%Y-%m-%d') with zero padding. -/
def formatDate (y m d : ℕ) : PyString :=
  natPad 4 y ++ '-' :: natPad 2 m ++ '-' :: natPad 2 d

/-- DataCleaner.standardize_date. -/
def standardize_date (v : PyVal) : PyVal :=
  if isNullLike v then .str []
  else
    match tryDateFormats dateFormats (dateHeuristicFix (pyStrip (pyStrOf v))) with
    | some (y, m, d) => .str (formatDate y m d)
    | Option.none => .str []

/-! ### standardize_conclusao -/

/-- The capping and rendering step of standardize_conclusao: cap at 100,
then render integral values as plain integers and other values with the
decimal-separator convention of the input (comma when the raw value used a
comma). -/
def conclusaoRender (comma : Bool) (x0 : PyFloat) : PyVal :=
  if pyIsInteger (pyMin100 x0) then .str (intDigits (pyToInt (pyMin100 x0)) ++ ['%'])
  else if comma then .str (mapChar '.' ',' (pyStr (pyMin100 x0)) ++ ['%'])
  else .str (pyStr (pyMin100 x0) ++ ['%'])

/-- DataCleaner.standardize_conclusao. -/
def standardize_conclusao (v : PyVal) : PyVal :=
  if isNullLike v then .str []
  else
    if (removeChar '%' (pyStrip (pyStrOf v))).contains ',' then
      match pyFloat? (mapChar ',' '.' (removeChar '%' (pyStrip (pyStrOf v)))) with
      | Option.none => .str []
      | some x => conclusaoRender true x
    else
      match pyFloat? (removeChar '%' (pyStrip (pyStrOf v))) with
      | Option.none => .str []
      | some x => conclusaoRender false x

/-! ### standardize_prioridade -/

/-- DataCleaner.standardize_prioridade. -/
def standardize_prioridade (v : PyVal) : PyVal :=
  if isNullLike v then .str [] else .str (pyLower (pyStrip (pyStrOf v)))

/-! ### standardize_status -/

/-- The synonym table of standardize_status (dictionary order kept; the
duplicated 'em dia' key and the dead trailing-space key included). -/
def statusMapping : List (PyString × PyString) :=
  [("critico".toList, "critico".toList),
   ("critical".toList, "critico".toList),
   ("critique".toList, "critico".toList),
   ("atrasado".toList, "atrasado".toList),
   ("delayed".toList, "atrasado".toList),
   ("atrasado ".toList, "atrasado".toList),
   ("em dia".toList, "em dia".toList),
   ("on schedule".toList, "em dia".toList),
   ("on time".toList, "em dia".toList),
   ("em dia".toList, "em dia".toList),
   ("pausado".toList, "pausado".toList),
   ("on hold".toList, "pausado".toList),
   ("em espera".toList, "pausado".toList),
   ("aguardando".toList, "pausado".toList),
   ("waiting".toList, "pausado".toList),
   ("pending".toList, "pausado".toList),
   ("suspended".toList, "pausado".toList),
   ("suspenso".toList, "pausado".toList),
   ("hold".toList, "pausado".toList),
   ("paused".toList, "pausado".toList)]

/-- The synonym-table lookup step of standardize_status. -/
def statusLookup (t : PyString) : PyVal :=
  match statusMapping.lookup t with
  | some r => .str r
  | Option.none => .str t

/-- DataCleaner.standardize_status. -/
def standardize_status (v : PyVal) : PyVal :=
  if isNullLike v then .str []
  else statusLookup (removeAccents (pyLower (pyStrip (pyStrOf v))))

/-! ### standardize_currency -/

/-- The letter-for-digit typo substitutions of standardize_currency, in
dictionary order. -/
def typoCorrections : List (Char × Char) :=
  [('O', '0'), ('I', '1'), ('l', '1'), ('S', '5'), ('G', '6'), ('B', '8')]

/-- Apply the typo-correction loop, skipping the 'O' entry when the
dedicated o/O pass already ran. -/
def applyTypos (oDone : Bool) (s : PyString) : PyString :=
  (typoCorrections.foldl
    (fun t p => if p.1 = 'O' ∧ oDone then t else mapChar p.1 p.2 t) s)

/-- Characters removed by re.sub(r'[R$\s\(\)estim]', '', ·). -/
def currencyStripChar (c : Char) : Bool :=
  c = 'R' || c = '$' || c = '(' || c = ')' ||
  c = 'e' || c = 's' || c = 't' || c = 'i' || c = 'm' || pyWhitespace c

/-- The typo-correction and symbol-stripping phase of standardize_currency. -/
def currencyCleaned (s : PyString) : PyString :=
  (applyTypos ((pyLower (pyStrip s)).contains 'o')
    (if (pyLower (pyStrip s)).contains 'o'
      then mapChar 'O' '0' (mapChar 'o' '0' (pyStrip s))
      else pyStrip s)).filter (fun c => ¬ currencyStripChar c)

/-- The thousands/decimal separator disambiguation of standardize_currency:
rightmost of ',' and '.' wins as decimal separator. -/
def currencySepFix (cleaned : PyString) : PyString :=
  if cleaned.contains ',' ∧ cleaned.contains '.' then
    if lastPos '.' cleaned < lastPos ',' cleaned then
      mapChar ',' '.' (removeChar '.' cleaned)
    else removeChar ',' cleaned
  else if cleaned.contains ',' then mapChar ',' '.' (removeChar '.' cleaned)
  else cleaned

/-- DataCleaner.standardize_currency. -/
def standardize_currency (v : PyVal) : PyVal :=
  if isNullLike v then .str []
  else
    match pyFloat? (currencySepFix (currencyCleaned (pyStrOf v))) with
    | some x => .num x
    | Option.none => .str []

/-! ### convert_to_hours -/

/-- The quote characters stripped by .strip('"...') in convert_to_hours. -/
def quoteChar (c : Char) : Bool := c = '"' || c = Char.ofNat 39

/-- str.strip('"...') on both ends. -/
def stripQuotes (s : PyString) : PyString :=
  ((s.dropWhile quoteChar).reverse.dropWhile quoteChar).reverse

/-- The decimal-hours fallback branch of convert_to_hours. -/
def hoursDecimalBranch (ts : PyString) : PyVal :=
  match pyFloat? (mapChar ',' '.' ts) with
  | some x => .num x
  | Option.none => .null

/-- The H:MM / decimal dispatch of convert_to_hours on the stripped text. -/
def hoursParse (ts : PyString) : PyVal :=
  if ts.contains ':' then
    match splitOnChar ':' ts with
    | [p0, p1] =>
      match pyFloat? p0, pyFloat? p1 with
      | some h, some m => .num (pyAdd h (pyDiv60 m))
      | _, _ => hoursDecimalBranch ts
    | _ => hoursDecimalBranch ts
  else hoursDecimalBranch ts

/-- DataCleaner.convert_to_hours. -/
def convert_to_hours (v : PyVal) : PyVal :=
  if pdIsna v || v = .str [] then .null
  else hoursParse (stripQuotes (pyStrip (pyStrOf v)))

/-! ### standardize_approval and standardize_remote -/

/-- The token matching chain of standardize_approval. -/
def approvalBranches (t : PyString) : PyVal :=
  if t = "Sim".toList then .str "Sim".toList
  else if t = "Não".toList then .str "Não".toList
  else if pyLower t = "sim".toList then .str "Sim".toList
  else if pyLower t = "não".toList ∨ pyLower t = "nao".toList then .str "Não".toList
  else if pyLower t = "s".toList then .str "Sim".toList
  else if pyLower t = "n".toList then .str "Não".toList
  else .str t

/-- DataCleaner.standardize_approval. -/
def standardize_approval (v : PyVal) : PyVal :=
  if isNullLike v then .str [] else approvalBranches (pyStrip (pyStrOf v))

/-- The token matching chain of standardize_remote. -/
def remoteBranches (t : PyString) : PyVal :=
  if t = "Híbrido".toList then .str "Híbrido".toList
  else if t = "Sim".toList then .str "Sim".toList
  else if t = "Não".toList then .str "Não".toList
  else if pyLower t = "sim".toList then .str "Sim".toList
  else if pyLower t = "não".toList ∨ pyLower t = "nao".toList then .str "Não".toList
  else if pyLower t = "híbrido".toList then .str "Híbrido".toList
  else .str t

/-- DataCleaner.standardize_remote. -/
def standardize_remote (v : PyVal) : PyVal :=
  if isNullLike v then .str [] else remoteBranches (pyStrip (pyStrOf v))

/-! ### join_data.py -/

/-- Python truthiness of a cell value. -/
def pyTruthy : PyVal → Bool
  | .str s => s ≠ []
  | .num (.dec m _) => m ≠ 0
  | .num .nan => true
  | .num (.inf _) => true
  | .null => false

/-- Characters kept by re.sub(r'[^\w\s]', '', ·): word characters and
whitespace (non-ASCII codepoints approximate Unicode word characters). -/
def wordOrSpace (c : Char) : Bool :=
  c.isAlphanum || c = '_' || pyWhitespace c || 128 ≤ c.toNat

/-- Helper for collapseWs: the flag records whether the previous character
was whitespace (already emitted as one space). -/
def collapseWsAux : Bool → PyString → PyString
  | _, [] => []
  | prevWs, c :: t =>
    if pyWhitespace c then
      if prevWs then collapseWsAux true t else ' ' :: collapseWsAux true t
    else c :: collapseWsAux false t

/-- re.sub(r'\s+', ' ', ·): collapse every whitespace run to one space. -/
def collapseWs (s : PyString) : PyString := collapseWsAux false s

/-- DataJoiner.standardize_project_name (returns "" unless given a
non-null string). -/
def standardize_project_name (v : PyVal) : PyString :=
  match v with
  | .str s => collapseWs ((pyStrip (pyLower s)).filter wordOrSpace)
  | _ => []

/-- DataJoiner.match_project_key. -/
def match_project_key (project_id projeto : PyVal) : PyString :=
  if pyTruthy project_id ∧ ¬ pdIsna project_id ∧ pyStrip (pyStrOf project_id) ≠ []
  then pyStrOf project_id
  else if pyTruthy projeto ∧ ¬ pdIsna projeto
  then standardize_project_name (.str (pyStrOf projeto))
  else []

/-- A source row as seen by the joiner: its identifier and display-name
cells. -/
structure SrcRow where
  project_id : PyVal
  projeto : PyVal
deriving DecidableEq

/-- The key universe of full_outer_join_data: the distinct match keys
found in the three sources (one base row is created per element). -/
def allMatchKeys (projetos horas custos : List SrcRow) : List PyString :=
  ((projetos.map fun r => match_project_key r.project_id r.projeto) ++
   (horas.map fun r => match_project_key r.project_id r.projeto) ++
   (custos.map fun r => match_project_key r.project_id r.projeto)).dedup

/-- The sequential flag assignments of add_match_flags, last write wins. -/
def match_quality (p h c : Bool) : PyString :=
  let q := "unmatched".toList
  let q := if p && h then "partial".toList else q
  let q := if p && c then "partial".toList else q
  let q := if h && c then "partial".toList else q
  let q := if p && h && c then "full".toList else q
  q

/-! ### data_processor.py -/

/-- A row of the joined table after load_and_clean_data, with the fields
calculate_kpis reads: the (non-empty) project identifier, the status cell
(None for a missing value, which groupby drops), the cleaned completion
fraction, and the cleaned planned-cost and cost-entry values. -/
structure KpiRow where
  project_id : PyString
  status : Option PyString
  conclusao_clean : Option ℚ
  custo_previsto_clean : ℚ
  valor_clean : ℚ
deriving DecidableEq

/-- pandas drop_duplicates(subset=['project_id']): keep the first row seen
for each identifier. -/
def dropDupFirst : List KpiRow → List PyString → List KpiRow
  | [], _ => []
  | r :: t, seen =>
    if r.project_id ∈ seen then dropDupFirst t seen
    else r :: dropDupFirst t (r.project_id :: seen)

/-- pandas Series.nunique on the project_id column. -/
def nuniquePids (df : List KpiRow) : ℕ := ((df.map (·.project_id)).dedup).length

/-- df.groupby('status')['project_id'].nunique(): rows with a missing
status are dropped, each remaining status is paired with its distinct
project count. -/
def statusCounts (df : List KpiRow) : List (PyString × ℕ) :=
  ((df.filterMap (·.status)).dedup).map
    (fun st => (st, nuniquePids (df.filter (·.status = some st))))

/-- The result record of calculate_kpis. -/
structure KPIs where
  total_projects : ℕ
  status_counts : List (PyString × ℕ)
  avg_completion : ℚ
  planned_costs : ℚ
  actual_costs : ℚ
  cost_variance : ℚ

/-- data_processor.calculate_kpis. -/
def calculate_kpis (df : List KpiRow) : KPIs :=
  let planned := ((dropDupFirst df []).map (·.custo_previsto_clean)).sum
  let actual := (df.map (·.valor_clean)).sum
  let compl := df.filterMap (·.conclusao_clean)
  { total_projects := nuniquePids df
    status_counts := statusCounts df
    avg_completion := if compl.length = 0 then 0 else compl.sum / compl.length
    planned_costs := planned
    actual_costs := actual
    cost_variance := if 0 < planned then (actual - planned) / planned * 100 else 0 }

/-! ### Auxiliary definitions used in claim statements -/

/-- Modelled from the spec: "whichever is rightmost is treated as the
decimal separator, the other as thousands grouping" — remove the other
separator and turn the rightmost one into a dot. -/
def rightmostDecimalForm (t : PyString) : PyString :=
  if lastPos '.' t < lastPos ',' t then mapChar ',' '.' (removeChar '.' t)
  else mapChar '.' '.' (removeChar ',' t)

/-- A `dec` float is kept normalized: a positive scale implies the mantissa
is not divisible by ten (so printed forms carry no trailing zero). -/
def Normalized : PyFloat → Prop
  | .dec m e => e = 0 ∨ m % 10 ≠ 0
  | _ => True

/-- The re-ingestion guard condition: a value whose textual form lowers to
one of the null sentinels is read back as null by the cleaners. -/
def NotSentinelOut (v : PyVal) : Prop :=
  ∀ s, v = .str s → pyLower s ∉ nullSentinels

/-- A float whose printed form parses back to itself (true of every CPython
float via repr round-tripping; in the exact model it can be assumed per
value). -/
def RoundTrips (x : PyFloat) : Prop := pyFloat? (pyStr x) = some x

/-- The hypothesis for idempotence of the numeric normalizers: a numeric
result is not NaN and its printed form parses back to itself. -/
def NumOutOk (v : PyVal) : Prop :=
  ∀ x, v = .num x → x ≠ .nan ∧ RoundTrips x

/-- A float value whose CPython str() is plain decimal notation (absolute
value zero, or in [1e-4, 1e16)): on this range the embedding's pyStr
matches CPython exactly; outside it CPython switches to scientific
notation, which the embedding does not model. -/
def NonScientific : PyFloat → Prop
  | .dec m e => m.natAbs < 10 ^ (e + 16) ∧ (m = 0 ∨ 10 ^ e ≤ m.natAbs * 10 ^ 4)
  | _ => True

/-- The planned cost contributed by the first row of a given project. -/
def firstCusto (df : List KpiRow) (p : PyString) : ℚ :=
  ((df.find? (·.project_id == p)).map (·.custo_previsto_clean)).getD 0

/-- The status of the first row carrying a given project identifier. -/
def statusOfPid (df : List KpiRow) (p : PyString) : PyString :=
  ((df.find? (·.project_id == p)).bind (·.status)).getD []

/-! ## Helper lemmas: lists and characters -/

theorem takeWhile_append_all {p : Char → Bool} :
    ∀ {a : PyString} (b : PyString), (∀ c ∈ a, p c = true) →
      (a ++ b).takeWhile p = a ++ b.takeWhile p := by
  intro a
  induction a with
  | nil => simp
  | cons c t ih =>
    intro b h
    have hc := h c (by simp)
    have ht := ih b fun x hx => h x (by simp [hx])
    simp [List.takeWhile_cons, hc, ht]

theorem dropWhile_append_all {p : Char → Bool} :
    ∀ {a : PyString} (b : PyString), (∀ c ∈ a, p c = true) →
      (a ++ b).dropWhile p = b.dropWhile p := by
  intro a
  induction a with
  | nil => simp
  | cons c t ih =>
    intro b h
    simp only [List.cons_append, List.dropWhile_cons, h c (by simp)]
    exact ih b fun x hx => h x (by simp [hx])

theorem mem_of_mem_dropWhile {p : Char → Bool} :
    ∀ {l : PyString} {x : Char}, x ∈ l.dropWhile p → x ∈ l := by
  intro l
  induction l with
  | nil => simp
  | cons c t ih =>
    intro x h
    rw [List.dropWhile_cons] at h
    by_cases hc : p c
    · simp only [hc, if_true] at h
      exact List.mem_cons_of_mem _ (ih h)
    · simpa [hc] using h

theorem mem_of_mem_ltrim {l : PyString} {x : Char} (h : x ∈ ltrim l) : x ∈ l :=
  mem_of_mem_dropWhile h

theorem mem_of_mem_rtrim {l : PyString} {x : Char} (h : x ∈ rtrim l) : x ∈ l := by
  unfold rtrim at h
  rw [List.mem_reverse] at h
  simpa using mem_of_mem_dropWhile h

theorem mem_of_mem_pyStrip {l : PyString} {x : Char} (h : x ∈ pyStrip l) : x ∈ l :=
  mem_of_mem_rtrim (mem_of_mem_ltrim h)

theorem mem_of_mem_mapChar {a b x : Char} {s : PyString}
    (h : x ∈ mapChar a b s) (hx : x ≠ b) : x ∈ s := by
  unfold mapChar at h
  obtain ⟨c, hc, hcx⟩ := List.mem_map.mp h
  by_cases hca : c = a
  · rw [if_pos hca] at hcx; exact absurd hcx hx.symm
  · rw [if_neg hca] at hcx; exact hcx ▸ hc

theorem mapChar_eq_self {a b : Char} {s : PyString} (h : a ∉ s) :
    mapChar a b s = s := by
  unfold mapChar
  induction s with
  | nil => rfl
  | cons c t ih =>
    have hca : c ≠ a := fun e => h (by simp [e])
    have ht := ih fun e => h (List.mem_cons_of_mem _ e)
    simp [hca, ht]

theorem not_mem_mapChar {a b : Char} {s : PyString} (hab : a ≠ b) :
    a ∉ mapChar a b s := by
  unfold mapChar
  intro h
  obtain ⟨c, _, hcx⟩ := List.mem_map.mp h
  by_cases hca : c = a
  · rw [if_pos hca] at hcx; exact hab (hcx ▸ rfl)
  · rw [if_neg hca] at hcx; exact hca (hcx ▸ rfl)

theorem mapChar_mapChar_cancel {a b : Char} {s : PyString} (h : b ∉ s) :
    mapChar b a (mapChar a b s) = s := by
  unfold mapChar
  rw [List.map_map]
  induction s with
  | nil => rfl
  | cons c t ih =>
    have hcb : c ≠ b := fun e => h (by simp [e])
    have ht := ih fun e => h (List.mem_cons_of_mem _ e)
    by_cases hca : c = a <;> simp [Function.comp, hca, hcb, ht]

theorem mem_mapChar_self {a b : Char} {s : PyString} (ha : a ∈ s) :
    b ∈ mapChar a b s := by
  unfold mapChar
  exact List.mem_map.mpr ⟨a, ha, by simp⟩

theorem lookup_rel {tbl : List (Char × Char)} (R : Char → Char → Prop)
    (hall : ∀ p ∈ tbl, R p.1 p.2) :
    ∀ {c b : Char}, tbl.lookup c = some b → R c b := by
  induction tbl with
  | nil => intro c b h; simp [List.lookup] at h
  | cons q t ih =>
    intro c b h
    rw [List.lookup] at h
    by_cases hc : c = q.1
    · have : (c == q.1) = true := by simp [hc]
      rw [this] at h
      simp only [Option.some.injEq] at h
      exact hc ▸ h ▸ hall q (by simp)
    · have : (c == q.1) = false := by simp [hc]
      rw [this] at h
      exact ih (fun p hp => hall p (by simp [hp])) h

theorem lookup_eq_none {tbl : List (Char × Char)} :
    ∀ {c : Char}, (∀ p ∈ tbl, p.1 ≠ c) → tbl.lookup c = Option.none := by
  induction tbl with
  | nil => intro c _; simp [List.lookup]
  | cons q t ih =>
    intro c h
    rw [List.lookup]
    have : (c == q.1) = false := by
      simp only [beq_eq_false_iff_ne, ne_eq]
      exact fun e => h q (by simp) e.symm
    rw [this]
    exact ih fun p hp => h p (by simp [hp])

/-! ## Helper lemmas: case folding and accents -/

theorem pyLowerChar_fix {c : Char} (h : ∀ p ∈ lowerTable, p.1 ≠ c) :
    pyLowerChar c = c := by
  unfold pyLowerChar
  rw [lookup_eq_none h]
  rfl

theorem pyLowerChar_idem (c : Char) :
    pyLowerChar (pyLowerChar c) = pyLowerChar c := by
  unfold pyLowerChar
  cases h : lowerTable.lookup c with
  | none => simp [h]
  | some b =>
    have hb : lowerTable.lookup b = Option.none :=
      lookup_rel (fun _ b => lowerTable.lookup b = Option.none) (by decide) h
    simp [h, hb]

theorem ws_pyLowerChar (c : Char) :
    pyWhitespace (pyLowerChar c) = pyWhitespace c := by
  unfold pyLowerChar
  cases h : lowerTable.lookup c with
  | none => simp [h]
  | some b =>
    have hb : pyWhitespace c = false ∧ pyWhitespace b = false :=
      lookup_rel (fun a b => pyWhitespace a = false ∧ pyWhitespace b = false)
        (by decide) h
    simp [h, hb.1, hb.2]

theorem deaccentChar_idem (c : Char) :
    deaccentChar (deaccentChar c) = deaccentChar c := by
  unfold deaccentChar
  cases h : deaccentTable.lookup c with
  | none => simp [h]
  | some b =>
    have hb : deaccentTable.lookup b = Option.none :=
      lookup_rel (fun _ b => deaccentTable.lookup b = Option.none) (by decide) h
    simp [h, hb]

theorem pyLowerChar_deaccent_lower (c : Char) :
    pyLowerChar (deaccentChar (pyLowerChar c)) = deaccentChar (pyLowerChar c) := by
  unfold deaccentChar
  cases h : deaccentTable.lookup (pyLowerChar c) with
  | none => simpa [h] using pyLowerChar_idem c
  | some b =>
    have hb : pyLowerChar b = b :=
      lookup_rel (fun _ b => pyLowerChar b = b) (by decide) h
    simp [h, hb]

theorem ws_deaccentChar (c : Char) :
    pyWhitespace (deaccentChar c) = pyWhitespace c := by
  unfold deaccentChar
  cases h : deaccentTable.lookup c with
  | none => simp [h]
  | some b =>
    have hb : pyWhitespace c = false ∧ pyWhitespace b = false :=
      lookup_rel (fun a b => pyWhitespace a = false ∧ pyWhitespace b = false)
        (by decide) h
    simp [h, hb.1, hb.2]

/-! ## Helper lemmas: stripping -/

theorem dropWhile_eq_self_of_head {p : Char → Bool} {l : PyString}
    (h : ∀ c, l.head? = some c → p c = false) : l.dropWhile p = l := by
  cases l with
  | nil => rfl
  | cons c t => simp [List.dropWhile_cons, h c rfl]

theorem head?_dropWhile {p : Char → Bool} :
    ∀ {l : PyString} {c : Char}, (l.dropWhile p).head? = some c → p c = false := by
  intro l
  induction l with
  | nil => intro c h; simp at h
  | cons a t ih =>
    intro c h
    rw [List.dropWhile_cons] at h
    by_cases ha : p a
    · exact ih (by simpa [ha] using h)
    · rw [if_neg ha] at h
      simp only [List.head?_cons, Option.some.injEq] at h
      simpa [← h] using ha

theorem dropWhile_idem {p : Char → Bool} (l : PyString) :
    (l.dropWhile p).dropWhile p = l.dropWhile p :=
  dropWhile_eq_self_of_head fun _ hc => head?_dropWhile hc

theorem ltrim_idem (l : PyString) : ltrim (ltrim l) = ltrim l :=
  dropWhile_idem l

theorem rtrim_idem (l : PyString) : rtrim (rtrim l) = rtrim l := by
  unfold rtrim
  rw [List.reverse_reverse, dropWhile_idem]

theorem getLast?_rtrim {l : PyString} {c : Char}
    (h : (rtrim l).getLast? = some c) : pyWhitespace c = false := by
  unfold rtrim at h
  rw [List.getLast?_reverse] at h
  exact head?_dropWhile h

theorem rtrim_eq_self_of_getLast {l : PyString}
    (h : ∀ c, l.getLast? = some c → pyWhitespace c = false) : rtrim l = l := by
  unfold rtrim
  rw [dropWhile_eq_self_of_head, List.reverse_reverse]
  intro c hc
  exact h c (by rwa [← List.getLast?_reverse, List.reverse_reverse] at hc)

theorem mem_of_getLast?_eq {l : PyString} {c : Char}
    (h : l.getLast? = some c) : c ∈ l := by
  rw [← List.head?_reverse] at h
  cases hl : l.reverse with
  | nil => rw [hl] at h; simp at h
  | cons a t =>
    rw [hl] at h
    simp only [List.head?_cons, Option.some.injEq] at h
    rw [← List.mem_reverse, hl, h]
    simp

theorem getLast?_ltrim {l : PyString} (h : ltrim l ≠ []) :
    (ltrim l).getLast? = l.getLast? := by
  unfold ltrim at h ⊢
  conv_rhs => rw [← List.takeWhile_append_dropWhile (p := pyWhitespace) (l := l)]
  rw [List.getLast?_append_of_ne_nil _ h]

theorem pyStrip_idem (l : PyString) : pyStrip (pyStrip l) = pyStrip l := by
  unfold pyStrip
  have h1 : rtrim (ltrim (rtrim l)) = ltrim (rtrim l) := by
    apply rtrim_eq_self_of_getLast
    intro c hc
    by_cases hn : ltrim (rtrim l) = []
    · rw [hn] at hc; simp at hc
    · exact getLast?_rtrim (getLast?_ltrim hn ▸ hc)
  rw [h1, ltrim_idem]

theorem pyStrip_eq_self {l : PyString}
    (h : ∀ c ∈ l, pyWhitespace c = false) : pyStrip l = l := by
  unfold pyStrip
  have hr : rtrim l = l := by
    apply rtrim_eq_self_of_getLast
    intro c hc
    exact h c (mem_of_getLast?_eq hc)
  rw [hr]
  apply dropWhile_eq_self_of_head
  intro c hc
  exact h c (by cases l with | nil => simp at hc | cons a t => simp at hc; simp [hc])

theorem dropWhile_map_comm {f : Char → Char} {l : PyString}
    (hf : ∀ c, pyWhitespace (f c) = pyWhitespace c) :
    (l.map f).dropWhile pyWhitespace = (l.dropWhile pyWhitespace).map f := by
  induction l with
  | nil => rfl
  | cons c t ih =>
    rw [List.map_cons, List.dropWhile_cons, List.dropWhile_cons, hf c]
    by_cases hc : pyWhitespace c <;> simp [hc, ih]

theorem pyStrip_map_comm {f : Char → Char} {l : PyString}
    (hf : ∀ c, pyWhitespace (f c) = pyWhitespace c) :
    pyStrip (l.map f) = (pyStrip l).map f := by
  unfold pyStrip ltrim rtrim
  rw [← List.map_reverse, dropWhile_map_comm hf, ← List.map_reverse,
    dropWhile_map_comm hf]

/-! ## Helper lemmas: digits and numerals -/

theorem isDigitB_digitChar (n : ℕ) : isDigitB (digitChar n) = true := by
  unfold digitChar
  split <;> decide

theorem digitVal_digitChar {n : ℕ} (h : n < 10) : digitVal (digitChar n) = n := by
  interval_cases n <;> decide

theorem digitsToNat_foldl (init : ℕ) (l : PyString) :
    l.foldl (fun a c => 10 * a + digitVal c) init =
      init * 10 ^ l.length + digitsToNat l := by
  induction l generalizing init with
  | nil => simp [digitsToNat]
  | cons c t ih =>
    have h1 : digitsToNat (c :: t) = digitVal c * 10 ^ t.length + digitsToNat t := by
      show List.foldl _ 0 (c :: t) = _
      rw [List.foldl_cons]
      simpa using ih (10 * 0 + digitVal c)
    rw [List.foldl_cons, ih (10 * init + digitVal c), h1, List.length_cons]
    ring

theorem digitsToNat_append (a b : PyString) :
    digitsToNat (a ++ b) = digitsToNat a * 10 ^ b.length + digitsToNat b := by
  unfold digitsToNat
  rw [List.foldl_append]
  exact digitsToNat_foldl _ b

theorem digitsToNat_singleton (c : Char) : digitsToNat [c] = digitVal c := by
  simp [digitsToNat]

theorem natPad_length (k n : ℕ) : (natPad k n).length = k := by
  induction k generalizing n with
  | zero => rfl
  | succ k ih => simp [natPad, ih]

theorem natPad_digits (k n : ℕ) : ∀ c ∈ natPad k n, isDigitB c = true := by
  induction k generalizing n with
  | zero => simp [natPad]
  | succ k ih =>
    intro c hc
    rw [natPad] at hc
    rcases List.mem_append.mp hc with h | h
    · exact ih _ c h
    · simp only [List.mem_singleton] at h
      exact h ▸ isDigitB_digitChar _

theorem digitsToNat_natPad {k n : ℕ} (h : n < 10 ^ k) :
    digitsToNat (natPad k n) = n := by
  induction k generalizing n with
  | zero => interval_cases n; rfl
  | succ k ih =>
    rw [natPad, digitsToNat_append, digitsToNat_singleton,
      digitVal_digitChar (Nat.mod_lt _ (by norm_num))]
    have hdiv : n / 10 < 10 ^ k := by
      rw [Nat.div_lt_iff_lt_mul (by norm_num)]
      calc n < 10 ^ (k + 1) := h
      _ = 10 ^ k * 10 := by ring
    rw [ih hdiv]
    simp
    omega

theorem natDigitsAux_spec :
    ∀ fuel n, n ≤ fuel →
      digitsToNat (natDigitsAux fuel n) = n ∧
      (∀ c ∈ natDigitsAux fuel n, isDigitB c = true) := by
  intro fuel
  induction fuel with
  | zero =>
    intro n hn
    interval_cases n
    exact ⟨rfl, by simp [natDigitsAux]⟩
  | succ fuel ih =>
    intro n hn
    by_cases h0 : n = 0
    · subst h0; exact ⟨rfl, by simp [natDigitsAux]⟩
    · have hdiv : n / 10 ≤ fuel := by
        have : n / 10 < n := Nat.div_lt_self (Nat.pos_of_ne_zero h0) (by norm_num)
        omega
      obtain ⟨ihv, ihd⟩ := ih (n / 10) hdiv
      constructor
      · rw [natDigitsAux, if_neg h0, digitsToNat_append, digitsToNat_singleton,
          digitVal_digitChar (Nat.mod_lt _ (by norm_num)), ihv]
        simp
        omega
      · intro c hc
        rw [natDigitsAux, if_neg h0] at hc
        rcases List.mem_append.mp hc with h | h
        · exact ihd c h
        · simp only [List.mem_singleton] at h
          exact h ▸ isDigitB_digitChar _

theorem digitsToNat_natDigits (n : ℕ) : digitsToNat (natDigits n) = n := by
  unfold natDigits
  by_cases h0 : n = 0
  · subst h0; rfl
  · rw [if_neg h0]
    exact (natDigitsAux_spec n n le_rfl).1

theorem natDigits_digits (n : ℕ) : ∀ c ∈ natDigits n, isDigitB c = true := by
  unfold natDigits
  by_cases h0 : n = 0
  · subst h0; decide
  · rw [if_neg h0]
    exact (natDigitsAux_spec n n le_rfl).2

theorem natDigits_ne_nil (n : ℕ) : natDigits n ≠ [] := by
  unfold natDigits
  by_cases h0 : n = 0
  · subst h0; simp
  · rw [if_neg h0]
    intro h
    have hv := (natDigitsAux_spec n n le_rfl).1
    rw [h] at hv
    exact h0 (by simpa [digitsToNat] using hv.symm)

theorem ne_of_digit_of_not {c x : Char} (h : isDigitB c = true)
    (hx : isDigitB x = false) : c ≠ x := fun e => by rw [e, hx] at h; cases h

theorem ws_false_of_digit {c : Char} (h : isDigitB c = true) :
    pyWhitespace c = false := by
  rw [Bool.eq_false_iff]
  intro hw
  have hc : c = ' ' ∨ c = '\t' ∨ c = '\n' ∨ c = '\r' ∨ c = '\x0b' ∨ c = '\x0c' := by
    simpa [pyWhitespace, or_assoc] using hw
  rcases hc with rfl | rfl | rfl | rfl | rfl | rfl <;> exact absurd h (by decide)

/-! ## Helper lemmas: float printing and parsing -/

/-- The characters that can occur in the printed form of a finite float. -/
def numChar (c : Char) : Bool := isDigitB c || c = '.' || c = '-'

theorem map_fix {f : Char → Char} :
    ∀ {s : PyString}, (∀ c ∈ s, f c = c) → s.map f = s := by
  intro s
  induction s with
  | nil => simp
  | cons c t ih =>
    intro h
    rw [List.map_cons, h c (by simp), ih fun x hx => h x (by simp [hx])]

theorem takeWhile_all {p : Char → Bool} {l : PyString}
    (h : ∀ c ∈ l, p c = true) : l.takeWhile p = l := by
  have := takeWhile_append_all (p := p) (a := l) [] h
  simpa using this

theorem dropWhile_all {p : Char → Bool} {l : PyString}
    (h : ∀ c ∈ l, p c = true) : l.dropWhile p = [] := by
  have := dropWhile_append_all (p := p) (a := l) [] h
  simpa using this

theorem numChar_of_digit {c : Char} (h : isDigitB c = true) : numChar c = true := by
  simp [numChar, h]

theorem ws_false_of_numChar {c : Char} (h : numChar c = true) :
    pyWhitespace c = false := by
  rcases Bool.or_eq_true_iff.mp h with h | h
  · rcases Bool.or_eq_true_iff.mp h with h | h
    · exact ws_false_of_digit h
    · rw [show c = '.' by simpa using h]; decide
  · rw [show c = '-' by simpa using h]; decide

theorem eq_of_numChar {c : Char} (h : numChar c = true) :
    isDigitB c = true ∨ c = '.' ∨ c = '-' := by
  rcases Bool.or_eq_true_iff.mp h with h | h
  · rcases Bool.or_eq_true_iff.mp h with h | h
    · exact Or.inl h
    · exact Or.inr (Or.inl (by simpa using h))
  · exact Or.inr (Or.inr (by simpa using h))

theorem ne_of_numChar {c x : Char} (h : numChar c = true)
    (hx : numChar x = false) : c ≠ x := fun e => by rw [e, hx] at h; cases h

theorem pyLowerChar_numChar {c : Char} (h : numChar c = true) :
    pyLowerChar c = c := by
  apply pyLowerChar_fix
  intro p hp e
  have hkeys : ∀ p ∈ lowerTable, numChar p.1 = false := by decide
  have := hkeys p hp
  rw [e, h] at this
  cases this

theorem pyLower_numChar {s : PyString} (h : ∀ c ∈ s, numChar c = true) :
    pyLower s = s :=
  map_fix fun c hc => pyLowerChar_numChar (h c hc)

theorem pyStrip_numChar {s : PyString} (h : ∀ c ∈ s, numChar c = true) :
    pyStrip s = s :=
  pyStrip_eq_self fun c hc => ws_false_of_numChar (h c hc)

theorem readSign_not_sign {c : Char} (t : PyString) (h1 : c ≠ '+') (h2 : c ≠ '-') :
    readSign (c :: t) = (false, c :: t) := by
  have hdef : readSign (c :: t) =
      if c = '+' then (false, t)
      else if c = '-' then (true, t) else (false, c :: t) := rfl
  rw [hdef, if_neg h1, if_neg h2]

theorem eqCI_false_of_numChar {s w : PyString} (hs : ∀ c ∈ s, numChar c = true)
    (hw : 'n' ∈ w) : eqCI s w = false := by
  unfold eqCI
  rw [pyLower_numChar hs]
  simp only [decide_eq_false_iff_not]
  intro e
  have := hs 'n' (e ▸ hw)
  exact absurd this (by decide)

theorem numChar_pyStr_dec (m : ℤ) (e : ℕ) :
    ∀ c ∈ pyStr (.dec m e), numChar c = true := by
  cases e with
  | zero =>
    intro c hc
    unfold pyStr at hc
    rcases List.mem_append.mp hc with h | h
    · unfold intDigits at h
      by_cases hm : m < 0
      · rw [if_pos hm] at h
        rcases List.mem_cons.mp h with h | h
        · rw [h]; decide
        · exact numChar_of_digit (natDigits_digits _ c h)
      · rw [if_neg hm] at h
        exact numChar_of_digit (natDigits_digits _ c h)
    · rcases List.mem_cons.mp h with h | h
      · rw [h]; decide
      · simp only [List.mem_singleton] at h
        rw [h]; decide
  | succ e =>
    intro c hc
    unfold pyStr at hc
    simp only [List.mem_append, List.mem_cons, List.mem_singleton] at hc
    rcases hc with (h | h) | h | h
    · by_cases hm : m < 0
      · rw [if_pos hm] at h
        simp only [List.mem_singleton] at h
        rw [h]; decide
      · rw [if_neg hm] at h
        simp at h
    · exact numChar_of_digit (natDigits_digits _ c h)
    · rw [h]; decide
    · exact numChar_of_digit (natPad_digits _ _ c h)

theorem pyFloatBody_digits_dot (neg : Bool) (ip : ℕ) (frac : PyString)
    (hfrac : ∀ c ∈ frac, isDigitB c = true) :
    pyFloatBody neg (natDigits ip ++ '.' :: frac) =
      some (normDec
        (applySign neg (ip * 10 ^ frac.length + digitsToNat frac)) frac.length) := by
  have hdot : isDigitB '.' = false := by decide
  have hr1 : (natDigits ip ++ '.' :: frac).dropWhile isDigitB = '.' :: frac := by
    rw [dropWhile_append_all _ (natDigits_digits ip)]
    simp [List.dropWhile_cons, hdot]
  have hd1 : bodyIntDigits (natDigits ip ++ '.' :: frac) = natDigits ip := by
    unfold bodyIntDigits
    rw [takeWhile_append_all _ (natDigits_digits ip)]
    simp [List.takeWhile_cons, hdot]
  have hd2 : bodyFracDigits (natDigits ip ++ '.' :: frac) = frac := by
    unfold bodyFracDigits
    rw [hr1]
    show List.takeWhile isDigitB frac = frac
    exact takeWhile_all hfrac
  have hr2 : bodyRest (natDigits ip ++ '.' :: frac) = [] := by
    unfold bodyRest
    rw [hr1]
    show List.dropWhile isDigitB frac = []
    exact dropWhile_all hfrac
  unfold pyFloatBody
  rw [hd1, hd2, hr2, if_neg (by simp [natDigits_ne_nil ip])]
  unfold pyFloatExp
  rw [digitsToNat_natDigits]

theorem pyFloatBody_digits (neg : Bool) (n : ℕ) :
    pyFloatBody neg (natDigits n) = some (normDec (applySign neg n) 0) := by
  have hr1 : (natDigits n).dropWhile isDigitB = [] := dropWhile_all (natDigits_digits n)
  have hd1 : bodyIntDigits (natDigits n) = natDigits n :=
    takeWhile_all (natDigits_digits n)
  have hd2 : bodyFracDigits (natDigits n) = [] := by
    unfold bodyFracDigits
    rw [hr1]
  have hr2 : bodyRest (natDigits n) = [] := by
    unfold bodyRest
    rw [hr1]
  unfold pyFloatBody
  rw [hd1, hd2, hr2, if_neg (by simp [natDigits_ne_nil n])]
  unfold pyFloatExp
  rw [digitsToNat_natDigits]
  simp [digitsToNat]

theorem normDec_dec_self {m : ℤ} {e : ℕ} (h : e = 0 ∨ m % 10 ≠ 0) :
    normDec m e = .dec m e := by
  cases e with
  | zero => rfl
  | succ e =>
    rcases h with h | h
    · exact absurd h (Nat.succ_ne_zero e)
    · rw [normDec, if_neg h]

theorem readSign_dash (t : PyString) : readSign ('-' :: t) = (true, t) := by
  have hdef : readSign ('-' :: t) =
      if '-' = '+' then (false, t)
      else if ('-' : Char) = '-' then (true, t) else (false, '-' :: t) := rfl
  rw [hdef, if_neg (by decide), if_pos rfl]

theorem pyFloat?_eq {s t : PyString} {neg : Bool}
    (h : readSign (pyStrip s) = (neg, t)) : pyFloat? s = pyFloatSigned neg t := by
  unfold pyFloat?
  rw [h]

theorem pyFloatSigned_numChar (neg : Bool) {t : PyString}
    (ht : ∀ c ∈ t, numChar c = true) : pyFloatSigned neg t = pyFloatBody neg t := by
  unfold pyFloatSigned
  rw [eqCI_false_of_numChar ht (by decide), eqCI_false_of_numChar ht (by decide),
    eqCI_false_of_numChar ht (by decide)]
  simp

theorem applySign_true (n : ℤ) : applySign true n = -n := by simp [applySign]

theorem applySign_false (n : ℤ) : applySign false n = n := by simp [applySign]

theorem normDec_mul10 (a : ℤ) : normDec (a * 10) 1 = .dec a 0 := by
  rw [show (1 : ℕ) = 0 + 1 from rfl, normDec, if_pos (Int.mul_emod_left a 10),
    Int.mul_ediv_cancel a (by norm_num : (10 : ℤ) ≠ 0)]
  rfl

theorem pyFloat?_decimal_pos (ip : ℕ) (frac : PyString)
    (hfrac : ∀ c ∈ frac, isDigitB c = true) :
    pyFloat? (natDigits ip ++ '.' :: frac) =
      some (normDec ((↑ip : ℤ) * 10 ^ frac.length + ↑(digitsToNat frac))
        frac.length) := by
  have hbchars : ∀ c ∈ natDigits ip ++ '.' :: frac, numChar c = true := by
    intro c hc
    rcases List.mem_append.mp hc with h | h
    · exact numChar_of_digit (natDigits_digits _ c h)
    · rcases List.mem_cons.mp h with h | h
      · rw [h]; decide
      · exact numChar_of_digit (hfrac c h)
  obtain ⟨c, t, hct⟩ := List.exists_cons_of_ne_nil (natDigits_ne_nil ip)
  have hcd : isDigitB c = true := natDigits_digits ip c (by rw [hct]; simp)
  have hcons : natDigits ip ++ '.' :: frac = c :: (t ++ '.' :: frac) := by
    rw [hct]; simp
  have hrs : readSign (pyStrip (natDigits ip ++ '.' :: frac)) =
      (false, natDigits ip ++ '.' :: frac) := by
    rw [pyStrip_numChar hbchars, hcons,
      readSign_not_sign _ (ne_of_digit_of_not hcd (by decide))
        (ne_of_digit_of_not hcd (by decide)), ← hcons]
  rw [pyFloat?_eq hrs, pyFloatSigned_numChar _ hbchars,
    pyFloatBody_digits_dot false ip frac hfrac, applySign_false]

theorem pyFloat?_decimal_neg (ip : ℕ) (frac : PyString)
    (hfrac : ∀ c ∈ frac, isDigitB c = true) :
    pyFloat? ('-' :: (natDigits ip ++ '.' :: frac)) =
      some (normDec (-((↑ip : ℤ) * 10 ^ frac.length + ↑(digitsToNat frac)))
        frac.length) := by
  have hbchars : ∀ c ∈ natDigits ip ++ '.' :: frac, numChar c = true := by
    intro c hc
    rcases List.mem_append.mp hc with h | h
    · exact numChar_of_digit (natDigits_digits _ c h)
    · rcases List.mem_cons.mp h with h | h
      · rw [h]; decide
      · exact numChar_of_digit (hfrac c h)
  have hall : ∀ c ∈ '-' :: (natDigits ip ++ '.' :: frac), numChar c = true := by
    intro c hc
    rcases List.mem_cons.mp hc with h | h
    · rw [h]; decide
    · exact hbchars c h
  have hrs : readSign (pyStrip ('-' :: (natDigits ip ++ '.' :: frac))) =
      (true, natDigits ip ++ '.' :: frac) := by
    rw [pyStrip_numChar hall, readSign_dash]
  rw [pyFloat?_eq hrs, pyFloatSigned_numChar _ hbchars,
    pyFloatBody_digits_dot true ip frac hfrac, applySign_true]

theorem pyFloat?_natDigits (n : ℕ) :
    pyFloat? (natDigits n) = some (.dec (↑n) 0) := by
  have hchars : ∀ c ∈ natDigits n, numChar c = true := fun c hc =>
    numChar_of_digit (natDigits_digits n c hc)
  obtain ⟨c, t, hct⟩ := List.exists_cons_of_ne_nil (natDigits_ne_nil n)
  have hcd : isDigitB c = true := natDigits_digits n c (by rw [hct]; simp)
  have hrs : readSign (pyStrip (natDigits n)) = (false, natDigits n) := by
    rw [pyStrip_numChar hchars, hct,
      readSign_not_sign _ (ne_of_digit_of_not hcd (by decide))
        (ne_of_digit_of_not hcd (by decide)), ← hct]
  rw [pyFloat?_eq hrs, pyFloatSigned_numChar _ hchars, pyFloatBody_digits false n,
    applySign_false]
  rfl

theorem pyFloat?_intDigits (k : ℤ) : pyFloat? (intDigits k) = some (.dec k 0) := by
  by_cases hk : k < 0
  · have hchars : ∀ c ∈ natDigits k.natAbs, numChar c = true := fun c hc =>
      numChar_of_digit (natDigits_digits _ c hc)
    have hall : ∀ c ∈ '-' :: natDigits k.natAbs, numChar c = true := by
      intro c hc
      rcases List.mem_cons.mp hc with h | h
      · rw [h]; decide
      · exact hchars c h
    have hrs : readSign (pyStrip ('-' :: natDigits k.natAbs)) =
        (true, natDigits k.natAbs) := by
      rw [pyStrip_numChar hall, readSign_dash]
    unfold intDigits
    rw [if_pos hk, pyFloat?_eq hrs, pyFloatSigned_numChar _ hchars,
      pyFloatBody_digits true k.natAbs, applySign_true]
    have harg : (-↑k.natAbs : ℤ) = k := by omega
    rw [harg]
    rfl
  · unfold intDigits
    rw [if_neg hk, pyFloat?_natDigits]
    have : (↑k.natAbs : ℤ) = k := by omega
    rw [this]

theorem pyStr_dec_roundTrip {m : ℤ} {e : ℕ} (hnorm : e = 0 ∨ m % 10 ≠ 0) :
    pyFloat? (pyStr (.dec m e)) = some (.dec m e) := by
  cases e with
  | zero =>
    have hfrac : ∀ c ∈ (['0'] : PyString), isDigitB c = true := by decide
    have hd0 : digitsToNat ['0'] = 0 := by decide
    have hpy : pyStr (.dec m 0) = intDigits m ++ '.' :: ['0'] := rfl
    by_cases hm : m < 0
    · rw [hpy]
      unfold intDigits
      rw [if_pos hm, List.cons_append, pyFloat?_decimal_neg m.natAbs ['0'] hfrac]
      have h1 : -((↑m.natAbs : ℤ) * 10 ^ (['0'] : PyString).length + ↑(digitsToNat ['0'])) =
          (-↑m.natAbs) * 10 := by
        rw [hd0, show (['0'] : PyString).length = 1 from rfl]
        push_cast
        ring
      rw [h1, show (['0'] : PyString).length = 1 from rfl, normDec_mul10]
      have : (-↑m.natAbs : ℤ) = m := by omega
      rw [this]
    · rw [hpy]
      unfold intDigits
      rw [if_neg hm, pyFloat?_decimal_pos m.natAbs ['0'] hfrac]
      have h1 : ((↑m.natAbs : ℤ) * 10 ^ (['0'] : PyString).length + ↑(digitsToNat ['0'])) =
          (↑m.natAbs) * 10 := by
        rw [hd0, show (['0'] : PyString).length = 1 from rfl]
        push_cast
        ring
      rw [h1, show (['0'] : PyString).length = 1 from rfl, normDec_mul10]
      have : (↑m.natAbs : ℤ) = m := by omega
      rw [this]
  | succ e =>
    have hm10 : m % 10 ≠ 0 := by
      rcases hnorm with h | h
      · exact absurd h (Nat.succ_ne_zero e)
      · exact h
    have hfrac := natPad_digits (e + 1) (m.natAbs % 10 ^ (e + 1))
    have hlen := natPad_length (e + 1) (m.natAbs % 10 ^ (e + 1))
    have hfp : m.natAbs % 10 ^ (e + 1) < 10 ^ (e + 1) :=
      Nat.mod_lt _ (Nat.pos_pow_of_pos _ (by norm_num))
    have hpy0 : pyStr (.dec m (e + 1)) =
        (if m < 0 then ['-'] else []) ++ natDigits (m.natAbs / 10 ^ (e + 1)) ++
          '.' :: natPad (e + 1) (m.natAbs % 10 ^ (e + 1)) := rfl
    have hnat : m.natAbs / 10 ^ (e + 1) * 10 ^ (e + 1) + m.natAbs % 10 ^ (e + 1) =
        m.natAbs := Nat.div_add_mod' _ _
    by_cases hm : m < 0
    · have hpy : pyStr (.dec m (e + 1)) =
          '-' :: (natDigits (m.natAbs / 10 ^ (e + 1)) ++ '.' ::
            natPad (e + 1) (m.natAbs % 10 ^ (e + 1))) := by
        rw [hpy0, if_pos hm]
        simp
      rw [hpy, pyFloat?_decimal_neg _ _ hfrac]
      have hval : -((↑(m.natAbs / 10 ^ (e + 1)) : ℤ) *
            10 ^ (natPad (e + 1) (m.natAbs % 10 ^ (e + 1))).length +
          ↑(digitsToNat (natPad (e + 1) (m.natAbs % 10 ^ (e + 1))))) = m := by
        rw [hlen, digitsToNat_natPad hfp]
        calc -((↑(m.natAbs / 10 ^ (e + 1)) : ℤ) * 10 ^ (e + 1) +
              ↑(m.natAbs % 10 ^ (e + 1)))
            = -(↑(m.natAbs / 10 ^ (e + 1) * 10 ^ (e + 1) + m.natAbs % 10 ^ (e + 1)) : ℤ) := by
              push_cast
              ring
          _ = -(↑m.natAbs : ℤ) := by rw [hnat]
          _ = m := by omega
      rw [hval, hlen, normDec_dec_self (Or.inr hm10)]
    · have hpy : pyStr (.dec m (e + 1)) =
          natDigits (m.natAbs / 10 ^ (e + 1)) ++ '.' ::
            natPad (e + 1) (m.natAbs % 10 ^ (e + 1)) := by
        rw [hpy0, if_neg hm]
        simp
      rw [hpy, pyFloat?_decimal_pos _ _ hfrac]
      have hval : ((↑(m.natAbs / 10 ^ (e + 1)) : ℤ) *
            10 ^ (natPad (e + 1) (m.natAbs % 10 ^ (e + 1))).length +
          ↑(digitsToNat (natPad (e + 1) (m.natAbs % 10 ^ (e + 1))))) = m := by
        rw [hlen, digitsToNat_natPad hfp]
        calc ((↑(m.natAbs / 10 ^ (e + 1)) : ℤ) * 10 ^ (e + 1) +
              ↑(m.natAbs % 10 ^ (e + 1)))
            = (↑(m.natAbs / 10 ^ (e + 1) * 10 ^ (e + 1) + m.natAbs % 10 ^ (e + 1)) : ℤ) := by
              push_cast
              ring
          _ = (↑m.natAbs : ℤ) := by rw [hnat]
          _ = m := by omega
      rw [hval, hlen, normDec_dec_self (Or.inr hm10)]

/-! ## Helper lemmas: normalization of parsed floats -/

theorem normDec_normal : ∀ (e : ℕ) (m : ℤ), Normalized (normDec m e) := by
  intro e
  induction e with
  | zero => intro m; exact Or.inl rfl
  | succ e ih =>
    intro m
    show Normalized (if m % 10 = 0 then normDec (m / 10) e else .dec m (e + 1))
    by_cases h : m % 10 = 0
    · rw [if_pos h]
      exact ih (m / 10)
    · rw [if_neg h]
      exact Or.inr h

theorem normDec_is_dec : ∀ (e : ℕ) (m : ℤ), ∃ a b, normDec m e = .dec a b := by
  intro e
  induction e with
  | zero => intro m; exact ⟨m, 0, rfl⟩
  | succ e ih =>
    intro m
    show ∃ a b, (if m % 10 = 0 then normDec (m / 10) e else .dec m (e + 1)) = .dec a b
    by_cases h : m % 10 = 0
    · rw [if_pos h]
      exact ih (m / 10)
    · rw [if_neg h]
      exact ⟨m, e + 1, rfl⟩

theorem scaleDec_normal (m : ℤ) (e : ℕ) (exp : ℤ) : Normalized (scaleDec m e exp) := by
  simp only [scaleDec]
  split_ifs <;> exact normDec_normal _ _

theorem scaleDec_is_dec (m : ℤ) (e : ℕ) (exp : ℤ) :
    ∃ a b, scaleDec m e exp = .dec a b := by
  simp only [scaleDec]
  split_ifs <;> exact normDec_is_dec _ _

theorem pyFloatExp_normal {m : ℤ} {e : ℕ} {r : PyString} {x : PyFloat}
    (h : pyFloatExp m e r = some x) : Normalized x := by
  cases r with
  | nil =>
    simp only [pyFloatExp, Option.some.injEq] at h
    exact h ▸ normDec_normal e m
  | cons c r3 =>
    simp only [pyFloatExp] at h
    split_ifs at h with h1 h2
    · simp only [Option.some.injEq] at h
      exact h ▸ scaleDec_normal _ _ _

theorem pyFloatExp_is_dec {m : ℤ} {e : ℕ} {r : PyString} {x : PyFloat}
    (h : pyFloatExp m e r = some x) : ∃ a b, x = .dec a b := by
  cases r with
  | nil =>
    simp only [pyFloatExp, Option.some.injEq] at h
    exact h ▸ normDec_is_dec e m
  | cons c r3 =>
    simp only [pyFloatExp] at h
    split_ifs at h with h1 h2
    · simp only [Option.some.injEq] at h
      exact h ▸ scaleDec_is_dec _ _ _

theorem pyFloatBody_normal {neg : Bool} {t : PyString} {x : PyFloat}
    (h : pyFloatBody neg t = some x) : Normalized x := by
  unfold pyFloatBody at h
  split_ifs at h
  exact pyFloatExp_normal h

theorem pyFloatBody_is_dec {neg : Bool} {t : PyString} {x : PyFloat}
    (h : pyFloatBody neg t = some x) : ∃ a b, x = .dec a b := by
  unfold pyFloatBody at h
  split_ifs at h
  exact pyFloatExp_is_dec h

theorem pyFloatSigned_normal {neg : Bool} {t : PyString} {x : PyFloat}
    (h : pyFloatSigned neg t = some x) : Normalized x := by
  unfold pyFloatSigned at h
  split_ifs at h
  · simp only [Option.some.injEq] at h
    rw [← h]
    trivial
  · simp only [Option.some.injEq] at h
    rw [← h]
    trivial
  · exact pyFloatBody_normal h

theorem pyFloat?_normalized {s : PyString} {x : PyFloat}
    (h : pyFloat? s = some x) : Normalized x := by
  unfold pyFloat? at h
  exact pyFloatSigned_normal h

theorem roundTrips_normalized {x : PyFloat} (h : Normalized x) :
    pyFloat? (pyStr x) = some x := by
  cases x with
  | dec m e => exact pyStr_dec_roundTrip h
  | nan => decide
  | inf neg => cases neg <;> decide

/-! ## Helper lemmas: dates -/

theorem splitOnChar_not_mem {sep : Char} :
    ∀ {l : PyString}, sep ∉ l → splitOnChar sep l = [l] := by
  intro l
  induction l with
  | nil => intro _; rfl
  | cons c t ih =>
    intro h
    have hc : c ≠ sep := fun e => h (by simp [e])
    have ht := ih fun e => h (List.mem_cons_of_mem _ e)
    simp [splitOnChar, hc, ht]

theorem splitOnChar_append {sep : Char} :
    ∀ {a : PyString} (b : PyString), sep ∉ a →
      splitOnChar sep (a ++ sep :: b) = a :: splitOnChar sep b := by
  intro a
  induction a with
  | nil => intro b _; simp [splitOnChar]
  | cons c t ih =>
    intro b h
    have hc : c ≠ sep := fun e => h (by simp [e])
    have ht := ih b fun e => h (List.mem_cons_of_mem _ e)
    simp [splitOnChar, hc, ht]

theorem splitOnChar_three {sep : Char} {a b c : PyString}
    (ha : sep ∉ a) (hb : sep ∉ b) (hc : sep ∉ c) :
    splitOnChar sep (a ++ sep :: (b ++ sep :: c)) = [a, b, c] := by
  rw [splitOnChar_append _ ha, splitOnChar_append _ hb, splitOnChar_not_mem hc]

theorem not_mem_of_all_digits {l : PyString} (hall : ∀ c ∈ l, isDigitB c = true)
    {x : Char} (hx : isDigitB x = false) : x ∉ l := fun h => by
  rw [hall x h] at hx; cases hx

theorem digitsToNat_lt {l : PyString} (h : ∀ c ∈ l, isDigitB c = true) :
    digitsToNat l < 10 ^ l.length := by
  induction l with
  | nil => simp [digitsToNat]
  | cons c t ih =>
    have hdc : digitsToNat (c :: t) = digitVal c * 10 ^ t.length + digitsToNat t := by
      show List.foldl _ 0 (c :: t) = _
      rw [List.foldl_cons]
      simpa using digitsToNat_foldl (10 * 0 + digitVal c) t
    have hv : digitVal c ≤ 9 := by
      have := h c (by simp)
      have h48 : 48 ≤ c.toNat ∧ c.toNat ≤ 57 := by simpa [isDigitB] using this
      unfold digitVal
      omega
    have ht := ih fun x hx => h x (by simp [hx])
    have hmul : digitVal c * 10 ^ t.length ≤ 9 * 10 ^ t.length :=
      Nat.mul_le_mul_right _ hv
    rw [hdc]
    have hpow : (10 : ℕ) ^ (c :: t).length = 10 * 10 ^ t.length := by
      simp [List.length_cons]
      ring
    rw [hpow]
    omega

theorem parseDayField_natPad {d : ℕ} (h1 : 1 ≤ d) (h2 : d ≤ 31) :
    parseDayField (natPad 2 d) = some d := by
  unfold parseDayField
  have hlen := natPad_length 2 d
  have hv : digitsToNat (natPad 2 d) = d := digitsToNat_natPad (by omega)
  rw [if_pos]
  · rw [hv]
  · refine ⟨?_, by rw [hlen], ?_, ?_, ?_⟩
    · intro e; rw [e] at hlen; simp at hlen
    · rw [List.all_eq_true]
      intro c hc
      exact natPad_digits 2 d c hc
    · omega
    · omega

theorem parseMonthField_natPad {m : ℕ} (h1 : 1 ≤ m) (h2 : m ≤ 12) :
    parseMonthField (natPad 2 m) = some m := by
  unfold parseMonthField
  have hlen := natPad_length 2 m
  have hv : digitsToNat (natPad 2 m) = m := digitsToNat_natPad (by omega)
  rw [if_pos]
  · rw [hv]
  · refine ⟨?_, by rw [hlen], ?_, ?_, ?_⟩
    · intro e; rw [e] at hlen; simp at hlen
    · rw [List.all_eq_true]
      intro c hc
      exact natPad_digits 2 m c hc
    · omega
    · omega

theorem parseYear4Field_natPad {y : ℕ} (h : y < 10000) :
    parseYear4Field (natPad 4 y) = some y := by
  unfold parseYear4Field
  rw [if_pos ⟨natPad_length 4 y, by rw [List.all_eq_true]; exact natPad_digits 4 y⟩,
    digitsToNat_natPad (by norm_num; omega)]

theorem parseDayField_natPad4 (y : ℕ) : parseDayField (natPad 4 y) = Option.none := by
  unfold parseDayField
  rw [if_neg]
  intro hcontra
  have := hcontra.2.1
  rw [natPad_length 4 y] at this
  omega

theorem parseDayField_bounds {p : PyString} {d : ℕ}
    (h : parseDayField p = some d) : 1 ≤ d ∧ d ≤ 31 := by
  unfold parseDayField at h
  split_ifs at h with hc
  · cases h
    exact ⟨hc.2.2.2.1, hc.2.2.2.2⟩

theorem parseMonthField_bounds {p : PyString} {m : ℕ}
    (h : parseMonthField p = some m) : 1 ≤ m ∧ m ≤ 12 := by
  unfold parseMonthField at h
  split_ifs at h with hc
  · cases h
    exact ⟨hc.2.2.2.1, hc.2.2.2.2⟩

theorem parseYear2Field_bounds {p : PyString} {y : ℕ}
    (h : parseYear2Field p = some y) : 1969 ≤ y ∧ y ≤ 2068 := by
  unfold parseYear2Field at h
  split_ifs at h with hc
  · simp only [Option.some.injEq] at h
    have hlt : digitsToNat p < 10 ^ p.length := digitsToNat_lt (by
      intro c hcp
      exact (List.all_eq_true.mp hc.2) c hcp)
    rw [hc.1] at hlt
    norm_num at hlt
    by_cases hv : digitsToNat p ≤ 68 <;> simp [hv] at h <;> omega

theorem parseYear4Field_bounds {p : PyString} {y : ℕ}
    (h : parseYear4Field p = some y) : y < 10000 := by
  unfold parseYear4Field at h
  split_ifs at h with hc
  · cases h
    have hlt : digitsToNat p < 10 ^ p.length := digitsToNat_lt (by
      intro c hcp
      exact (List.all_eq_true.mp hc.2) c hcp)
    rw [hc.1] at hlt
    norm_num at hlt
    exact hlt

theorem daysInMonth_le_31 (y m : ℕ) : daysInMonth y m ≤ 31 := by
  unfold daysInMonth
  split
  · split <;> norm_num
  all_goals norm_num

theorem strptimeFields_inv {od om oy : Option ℕ} {y m d : ℕ}
    (h : strptimeFields od om oy = some (y, m, d)) :
    od = some d ∧ om = some m ∧ oy = some y ∧ d ≤ daysInMonth y m := by
  cases od with
  | none => exact absurd h (by simp [strptimeFields])
  | some d0 =>
    cases om with
    | none => exact absurd h (by simp [strptimeFields])
    | some m0 =>
      cases oy with
      | none => exact absurd h (by simp [strptimeFields])
      | some y0 =>
        simp only [strptimeFields] at h
        split_ifs at h with hval
        · simp only [Option.some.injEq, Prod.mk.injEq] at h
          obtain ⟨hy, hm, hd⟩ := h
          subst hy; subst hm; subst hd
          exact ⟨rfl, rfl, rfl, hval⟩

theorem strptimeDMY_bounds {y4 : Bool} {parts : List PyString} {y m d : ℕ}
    (h : strptimeDMY y4 parts = some (y, m, d)) :
    1 ≤ m ∧ m ≤ 12 ∧ 1 ≤ d ∧ d ≤ daysInMonth y m ∧ y < 10000 ∧
      (y4 = false → 1969 ≤ y) := by
  rcases parts with _ | ⟨ds, _ | ⟨ms, _ | ⟨ys, _ | ⟨x, rest⟩⟩⟩⟩
  · exact absurd h (by simp [strptimeDMY])
  · exact absurd h (by simp [strptimeDMY])
  · exact absurd h (by simp [strptimeDMY])
  · unfold strptimeDMY at h
    obtain ⟨hd, hm, hy, hval⟩ := strptimeFields_inv h
    obtain ⟨hd1, hd2⟩ := parseDayField_bounds hd
    obtain ⟨hm1, hm2⟩ := parseMonthField_bounds hm
    cases y4 with
    | true =>
      have hy4 := parseYear4Field_bounds (by simpa using hy)
      exact ⟨hm1, hm2, hd1, hval, hy4, by intro hc; cases hc⟩
    | false =>
      have hy2 := parseYear2Field_bounds (by simpa using hy)
      exact ⟨hm1, hm2, hd1, hval, by omega, fun _ => by omega⟩
  · exact absurd h (by simp [strptimeDMY])

theorem strptimeYMD_bounds {parts : List PyString} {y m d : ℕ}
    (h : strptimeYMD parts = some (y, m, d)) :
    1 ≤ m ∧ m ≤ 12 ∧ 1 ≤ d ∧ d ≤ daysInMonth y m ∧ y < 10000 := by
  rcases parts with _ | ⟨ys, _ | ⟨ms, _ | ⟨ds, _ | ⟨x, rest⟩⟩⟩⟩
  · exact absurd h (by simp [strptimeYMD])
  · exact absurd h (by simp [strptimeYMD])
  · exact absurd h (by simp [strptimeYMD])
  · unfold strptimeYMD at h
    obtain ⟨hd, hm, hy, hval⟩ := strptimeFields_inv h
    obtain ⟨hd1, hd2⟩ := parseDayField_bounds hd
    obtain ⟨hm1, hm2⟩ := parseMonthField_bounds hm
    have hy4 := parseYear4Field_bounds hy
    exact ⟨hm1, hm2, hd1, hval, hy4⟩
  · exact absurd h (by simp [strptimeYMD])

theorem strptime_inv {fmt : DateFmt} {s : PyString} {ymd : ℕ × ℕ × ℕ}
    (h : strptime fmt s = some ymd) :
    1 ≤ ymd.2.1 ∧ ymd.2.1 ≤ 12 ∧ 1 ≤ ymd.2.2 ∧
      ymd.2.2 ≤ daysInMonth ymd.1 ymd.2.1 ∧ ymd.1 < 10000 ∧
      (isTwoDigitFmt fmt = true → 100 ≤ ymd.1) := by
  obtain ⟨y, m, d⟩ := ymd
  cases fmt with
  | dmy sep y4 =>
    unfold strptime at h
    have hb := strptimeDMY_bounds h
    refine ⟨hb.1, hb.2.1, hb.2.2.1, hb.2.2.2.1, hb.2.2.2.2.1, ?_⟩
    intro htwo
    cases y4 with
    | true => cases htwo
    | false => have := hb.2.2.2.2.2 rfl; omega
  | ymd =>
    unfold strptime at h
    have hb := strptimeYMD_bounds h
    exact ⟨hb.1, hb.2.1, hb.2.2.1, hb.2.2.2.1, hb.2.2.2.2, by intro hc; cases hc⟩

theorem adjustCentury_noop {fmt : DateFmt} {s : PyString} {ymd : ℕ × ℕ × ℕ}
    (h : strptime fmt s = some ymd) : adjustCentury fmt ymd = ymd := by
  have hinv := strptime_inv h
  unfold adjustCentury
  rw [if_neg]
  intro hcontra
  have := hinv.2.2.2.2.2 hcontra.1
  omega

theorem tryDateFormats_inv :
    ∀ (fmts : List DateFmt) {s : PyString} {ymd : ℕ × ℕ × ℕ},
      tryDateFormats fmts s = some ymd → ∃ fmt ∈ fmts, strptime fmt s = some ymd := by
  intro fmts
  induction fmts with
  | nil => intro s ymd h; cases h
  | cons fmt rest ih =>
    intro s ymd h
    unfold tryDateFormats at h
    cases hf : strptime fmt s with
    | none =>
      rw [hf] at h
      obtain ⟨g, hg, hgs⟩ := ih h
      exact ⟨g, by simp [hg], hgs⟩
    | some ymd0 =>
      rw [hf] at h
      simp only [Option.some.injEq] at h
      rw [adjustCentury_noop hf] at h
      exact ⟨fmt, by simp, h ▸ hf⟩

theorem isNullLike_str_false {s : PyString} (hne : s ≠ [])
    (hsent : pyLower s ∉ nullSentinels) : isNullLike (.str s) = false := by
  simp [isNullLike, pdIsna, pyStrOf, hne, hsent]

theorem standardize_date_shape (v : PyVal) :
    standardize_date v = .str [] ∨
      ∃ y m d, (1 ≤ m ∧ m ≤ 12 ∧ 1 ≤ d ∧ d ≤ daysInMonth y m ∧ y < 10000) ∧
        standardize_date v = .str (formatDate y m d) := by
  unfold standardize_date
  by_cases hg : isNullLike v = true
  · rw [if_pos hg]; exact Or.inl rfl
  · rw [if_neg hg]
    cases htry : tryDateFormats dateFormats (dateHeuristicFix (pyStrip (pyStrOf v))) with
    | none => exact Or.inl rfl
    | some ymd =>
      obtain ⟨y, m, d⟩ := ymd
      obtain ⟨fmt, _, hfmt⟩ := tryDateFormats_inv _ htry
      have hinv := strptime_inv hfmt
      exact Or.inr ⟨y, m, d,
        ⟨hinv.1, hinv.2.1, hinv.2.2.1, hinv.2.2.2.1, hinv.2.2.2.2.1⟩, rfl⟩

/-! ## Helper lemmas: date format round trip -/

theorem sep_false_of_digit {c : Char} (h : isDigitB c = true) : sepChar c = false := by
  rw [Bool.eq_false_iff]
  intro hs
  have : c = '-' ∨ c = '.' ∨ c = '/' := by simpa [sepChar, or_assoc] using hs
  rcases this with rfl | rfl | rfl <;> exact absurd h (by decide)

theorem pyInt?_digits {l : PyString} (hd : ∀ c ∈ l, isDigitB c = true)
    (hne : l ≠ []) : pyInt? l = some (↑(digitsToNat l)) := by
  obtain ⟨c, t, hct⟩ := List.exists_cons_of_ne_nil hne
  have hcd : isDigitB c = true := hd c (by rw [hct]; simp)
  have hstrip : pyStrip l = l :=
    pyStrip_eq_self fun x hx => ws_false_of_digit (hd x hx)
  have hrs : readSign (pyStrip l) = (false, l) := by
    rw [hstrip, hct,
      readSign_not_sign _ (ne_of_digit_of_not hcd (by decide))
        (ne_of_digit_of_not hcd (by decide)), ← hct]
  unfold pyInt?
  rw [hrs]
  unfold pyIntSigned
  rw [if_pos ⟨hne, List.all_eq_true.mpr hd⟩]
  rw [applySign_false]

theorem natPad_two (n : ℕ) :
    natPad 2 n = [digitChar (n / 10 % 10), digitChar (n % 10)] := by
  simp [natPad]

theorem natPad_four (n : ℕ) :
    natPad 4 n = [digitChar (n / 10 / 10 / 10 % 10), digitChar (n / 10 / 10 % 10),
      digitChar (n / 10 % 10), digitChar (n % 10)] := by
  simp [natPad]

theorem formatDate_explicit (y m d : ℕ) :
    formatDate y m d =
      [digitChar (y / 10 / 10 / 10 % 10), digitChar (y / 10 / 10 % 10),
       digitChar (y / 10 % 10), digitChar (y % 10), '-',
       digitChar (m / 10 % 10), digitChar (m % 10), '-',
       digitChar (d / 10 % 10), digitChar (d % 10)] := by
  unfold formatDate
  rw [natPad_four, natPad_two, natPad_two]
  rfl

theorem formatDate_shape (y m d : ℕ) :
    formatDate y m d = natPad 4 y ++ '-' :: (natPad 2 m ++ '-' :: natPad 2 d) := by
  simp [formatDate]

theorem formatDate_chars (y m d : ℕ) :
    ∀ c ∈ formatDate y m d, isDigitB c = true ∨ c = '-' := by
  intro c hc
  rw [formatDate_shape] at hc
  rcases List.mem_append.mp hc with h | h
  · exact Or.inl (natPad_digits 4 y c h)
  · rcases List.mem_cons.mp h with h | h
    · exact Or.inr h
    · rcases List.mem_append.mp h with h | h
      · exact Or.inl (natPad_digits 2 m c h)
      · rcases List.mem_cons.mp h with h | h
        · exact Or.inr h
        · exact Or.inl (natPad_digits 2 d c h)

theorem not_mem_formatDate {y m d : ℕ} {x : Char} (hx1 : isDigitB x = false)
    (hx2 : x ≠ '-') : x ∉ formatDate y m d := by
  intro hmem
  rcases formatDate_chars y m d x hmem with h | h
  · rw [hx1] at h; cases h
  · exact hx2 h

theorem formatDate_length (y m d : ℕ) : (formatDate y m d).length = 10 := by
  simp [formatDate, natPad_length]

theorem pyLower_formatDate (y m d : ℕ) :
    pyLower (formatDate y m d) = formatDate y m d := by
  apply map_fix
  intro c hc
  apply pyLowerChar_fix
  intro p hp e
  have hkeys : ∀ p ∈ lowerTable, isDigitB p.1 = false ∧ p.1 ≠ '-' := by decide
  rcases formatDate_chars y m d c hc with h | h
  · rw [← e] at h
    rw [(hkeys p hp).1] at h
    cases h
  · exact (hkeys p hp).2 (e.trans h)

theorem formatDate_not_sentinel (y m d : ℕ) :
    pyLower (formatDate y m d) ∉ nullSentinels := by
  rw [pyLower_formatDate]
  intro hmem
  have hlen : ∀ w ∈ nullSentinels, w.length ≤ 4 := by decide
  have := hlen _ hmem
  rw [formatDate_length] at this
  omega

theorem pyStrip_formatDate (y m d : ℕ) :
    pyStrip (formatDate y m d) = formatDate y m d := by
  apply pyStrip_eq_self
  intro c hc
  rcases formatDate_chars y m d c hc with h | h
  · exact ws_false_of_digit h
  · rw [h]; rfl

theorem splitOnChar_formatDate (y m d : ℕ) :
    splitOnChar '-' (formatDate y m d) = [natPad 4 y, natPad 2 m, natPad 2 d] := by
  rw [formatDate_shape,
    splitOnChar_three (not_mem_of_all_digits (natPad_digits 4 y) (by decide))
      (not_mem_of_all_digits (natPad_digits 2 m) (by decide))
      (not_mem_of_all_digits (natPad_digits 2 d) (by decide))]

theorem strptime_slash_formatDate (b : Bool) (y m d : ℕ) :
    strptime (.dmy '/' b) (formatDate y m d) = Option.none := by
  show strptimeDMY b (splitOnChar '/' (formatDate y m d)) = Option.none
  rw [splitOnChar_not_mem (not_mem_formatDate (by decide) (by decide))]
  simp [strptimeDMY]

theorem strptime_dot_formatDate (b : Bool) (y m d : ℕ) :
    strptime (.dmy '.' b) (formatDate y m d) = Option.none := by
  show strptimeDMY b (splitOnChar '.' (formatDate y m d)) = Option.none
  rw [splitOnChar_not_mem (not_mem_formatDate (by decide) (by decide))]
  simp [strptimeDMY]

theorem strptimeDMY_three (y4 : Bool) (ds ms ys : PyString) :
    strptimeDMY y4 [ds, ms, ys] = strptimeFields (parseDayField ds)
      (parseMonthField ms)
      (if y4 then parseYear4Field ys else parseYear2Field ys) := rfl

theorem strptimeYMD_three (ys ms ds : PyString) :
    strptimeYMD [ys, ms, ds] = strptimeFields (parseDayField ds)
      (parseMonthField ms) (parseYear4Field ys) := rfl

theorem strptime_dash_formatDate (b : Bool) (y m d : ℕ) :
    strptime (.dmy '-' b) (formatDate y m d) = Option.none := by
  show strptimeDMY b (splitOnChar '-' (formatDate y m d)) = Option.none
  rw [splitOnChar_formatDate, strptimeDMY_three, parseDayField_natPad4]
  simp [strptimeFields]

theorem strptime_ymd_formatDate {y m d : ℕ} (hy : y < 10000)
    (hm1 : 1 ≤ m) (hm2 : m ≤ 12) (hd1 : 1 ≤ d) (hval : d ≤ daysInMonth y m) :
    strptime .ymd (formatDate y m d) = some (y, m, d) := by
  show strptimeYMD (splitOnChar '-' (formatDate y m d)) = some (y, m, d)
  rw [splitOnChar_formatDate, strptimeYMD_three,
    parseYear4Field_natPad hy, parseMonthField_natPad hm1 hm2,
    parseDayField_natPad hd1 (le_trans hval (daysInMonth_le_31 y m))]
  simp [strptimeFields, hval]

theorem adjustCentury_ymd (x : ℕ × ℕ × ℕ) : adjustCentury .ymd x = x := by
  simp [adjustCentury, isTwoDigitFmt]

theorem tryDateFormats_formatDate {y m d : ℕ} (hy : y < 10000)
    (hm1 : 1 ≤ m) (hm2 : m ≤ 12) (hd1 : 1 ≤ d) (hval : d ≤ daysInMonth y m) :
    tryDateFormats dateFormats (formatDate y m d) = some (y, m, d) := by
  simp only [dateFormats, tryDateFormats, strptime_slash_formatDate,
    strptime_dot_formatDate, strptime_dash_formatDate,
    strptime_ymd_formatDate hy hm1 hm2 hd1 hval, adjustCentury_ymd]

theorem dateHeuristicFix_formatDate {y m d : ℕ} (hm2 : m ≤ 12) :
    dateHeuristicFix (formatDate y m d) = formatDate y m d := by
  rw [formatDate_explicit]
  have hy4 : ∀ c ∈ [digitChar (y / 10 / 10 / 10 % 10), digitChar (y / 10 / 10 % 10),
      digitChar (y / 10 % 10), digitChar (y % 10)], isDigitB c = true := by
    intro c hc
    rcases List.mem_cons.mp hc with h | h
    · exact h ▸ isDigitB_digitChar _
    rcases List.mem_cons.mp h with h | h
    · exact h ▸ isDigitB_digitChar _
    rcases List.mem_cons.mp h with h | h
    · exact h ▸ isDigitB_digitChar _
    simp only [List.mem_singleton] at h
    exact h ▸ isDigitB_digitChar _
  have hyint : pyInt? [digitChar (y / 10 / 10 / 10 % 10), digitChar (y / 10 / 10 % 10),
      digitChar (y / 10 % 10), digitChar (y % 10)] =
      some (↑(digitsToNat [digitChar (y / 10 / 10 / 10 % 10), digitChar (y / 10 / 10 % 10),
        digitChar (y / 10 % 10), digitChar (y % 10)])) :=
    pyInt?_digits hy4 (by simp)
  have hmdrop : dropSeps [digitChar (m / 10 % 10), digitChar (m % 10), '-'] =
      [digitChar (m / 10 % 10), digitChar (m % 10)] := by
    simp [dropSeps, sep_false_of_digit (isDigitB_digitChar _),
      (by decide : sepChar '-' = true)]
  have hmnat : digitsToNat [digitChar (m / 10 % 10), digitChar (m % 10)] = m := by
    rw [← natPad_two]
    exact digitsToNat_natPad (by omega)
  have hmint : pyInt? [digitChar (m / 10 % 10), digitChar (m % 10)] = some (↑m) := by
    rw [pyInt?_digits (by
      intro c hc
      rcases List.mem_cons.mp hc with h | h
      · exact h ▸ isDigitB_digitChar _
      · simp only [List.mem_singleton] at h
        exact h ▸ isDigitB_digitChar _) (by simp), hmnat]
  have hddrop : dropSeps [digitChar (d / 10 % 10), digitChar (d % 10)] =
      [digitChar (d / 10 % 10), digitChar (d % 10)] := by
    simp [dropSeps, sep_false_of_digit (isDigitB_digitChar _)]
  have hdint : pyInt? [digitChar (d / 10 % 10), digitChar (d % 10)] =
      some (↑(digitsToNat [digitChar (d / 10 % 10), digitChar (d % 10)])) := by
    exact pyInt?_digits (by
      intro c hc
      rcases List.mem_cons.mp hc with h | h
      · exact h ▸ isDigitB_digitChar _
      · simp only [List.mem_singleton] at h
        exact h ▸ isDigitB_digitChar _) (by simp)
  have hcond : ¬((12 : ℤ) < ↑m ∧
      (↑(digitsToNat [digitChar (d / 10 % 10), digitChar (d % 10)]) : ℤ) ≤ 12) := by
    intro hcontra
    have h12 := hcontra.1
    have hmle : (↑m : ℤ) ≤ 12 := by exact_mod_cast hm2
    omega
  have hsep : sepChar '-' = true := by decide
  simp only [dateHeuristicFix, hmdrop, hddrop, hyint, hmint, hdint, hsep,
    true_and, if_true, hmnat, if_neg hcond]

theorem standardize_date_formatDate {y m d : ℕ}
    (hb : 1 ≤ m ∧ m ≤ 12 ∧ 1 ≤ d ∧ d ≤ daysInMonth y m ∧ y < 10000) :
    standardize_date (.str (formatDate y m d)) = .str (formatDate y m d) := by
  unfold standardize_date
  rw [isNullLike_str_false (by
      intro e
      have := formatDate_length y m d
      rw [e] at this
      cases this) (formatDate_not_sentinel y m d)]
  simp only [Bool.false_eq_true, if_false]
  have hstr : pyStrOf (.str (formatDate y m d)) = formatDate y m d := rfl
  rw [hstr, pyStrip_formatDate, dateHeuristicFix_formatDate hb.2.1,
    tryDateFormats_formatDate hb.2.2.2.2 hb.1 hb.2.1 hb.2.2.1 hb.2.2.2.1]

theorem standardize_date_idem (v : PyVal) :
    standardize_date (standardize_date v) = standardize_date v := by
  rcases standardize_date_shape v with h | ⟨y, m, d, hb, h⟩
  · rw [h]
    rfl
  · rw [h, standardize_date_formatDate ⟨hb.1, hb.2.1, hb.2.2.1, hb.2.2.2.1, hb.2.2.2.2⟩]

theorem mapChar_self (a : Char) (s : PyString) : mapChar a a s = s :=
  map_fix fun c _ => by
    by_cases h : c = a
    · rw [if_pos h, h]
    · rw [if_neg h]

theorem firstCusto_cons_self (r : KpiRow) (t : List KpiRow) :
    firstCusto (r :: t) r.project_id = r.custo_previsto_clean := by
  unfold firstCusto
  rw [List.find?_cons_of_pos _ (by simp)]
  rfl

theorem firstCusto_cons_ne {p : PyString} (r : KpiRow) (t : List KpiRow)
    (h : p ≠ r.project_id) : firstCusto (r :: t) p = firstCusto t p := by
  unfold firstCusto
  rw [List.find?_cons_of_neg _ (by simp [Ne.symm h])]

theorem dropDupFirst_sum :
    ∀ (df : List KpiRow) (seen : List PyString),
      ((dropDupFirst df seen).map (·.custo_previsto_clean)).sum =
        ∑ p ∈ (df.map (·.project_id)).toFinset \ seen.toFinset, firstCusto df p := by
  intro df
  induction df with
  | nil => intro seen; simp [dropDupFirst]
  | cons r t ih =>
    intro seen
    show ((if r.project_id ∈ seen then dropDupFirst t seen
        else r :: dropDupFirst t (r.project_id :: seen)).map
          (·.custo_previsto_clean)).sum = _
    by_cases hs : r.project_id ∈ seen
    · rw [if_pos hs, ih seen]
      have hset : (List.map (·.project_id) (r :: t)).toFinset \ seen.toFinset =
          (List.map (·.project_id) t).toFinset \ seen.toFinset := by
        ext p
        by_cases hp : p = r.project_id <;> simp [hp, hs]
      rw [hset]
      apply Finset.sum_congr rfl
      intro p hp
      have hpne : p ≠ r.project_id := by
        rcases Finset.mem_sdiff.mp hp with ⟨_, hns⟩
        intro e
        exact hns (by rw [e]; simpa using hs)
      exact (firstCusto_cons_ne r t hpne).symm
    · rw [if_neg hs, List.map_cons, List.sum_cons, ih (r.project_id :: seen)]
      have hset : (List.map (·.project_id) (r :: t)).toFinset \ seen.toFinset =
          insert r.project_id ((List.map (·.project_id) t).toFinset \
            (r.project_id :: seen).toFinset) := by
        ext p
        by_cases hp : p = r.project_id <;> simp [hp, hs]
      rw [hset, Finset.sum_insert (by simp), firstCusto_cons_self]
      congr 1
      apply Finset.sum_congr rfl
      intro p hp
      have hpne : p ≠ r.project_id := by
        rcases Finset.mem_sdiff.mp hp with ⟨_, hns⟩
        intro e
        exact hns (by rw [e]; simp)
      exact (firstCusto_cons_ne r t hpne).symm

theorem nuniquePids_card (df : List KpiRow) :
    nuniquePids df = (df.map (·.project_id)).toFinset.card := by
  rw [List.card_toFinset]
  rfl

theorem find?_pid_mem {df : List KpiRow} {p : PyString}
    (h : p ∈ df.map (·.project_id)) :
    ∃ r0, df.find? (fun r => r.project_id == p) = some r0 ∧ r0 ∈ df ∧
      r0.project_id = p := by
  rcases List.mem_map.mp h with ⟨r, hr, e⟩
  have hsome : (df.find? (fun r => r.project_id == p)).isSome := by
    rw [List.find?_isSome]
    exact ⟨r, hr, by simp [e]⟩
  rcases Option.isSome_iff_exists.mp hsome with ⟨r0, h0⟩
  refine ⟨r0, h0, List.mem_of_find?_eq_some h0, ?_⟩
  have := List.find?_some h0
  simpa using this

theorem statusOfPid_of_mem {df : List KpiRow}
    (hcons : ∀ r ∈ df, ∀ r2 ∈ df, r.project_id = r2.project_id →
      r.status = r2.status)
    {r : KpiRow} (hr : r ∈ df) {st : PyString} (hst : r.status = some st) :
    statusOfPid df r.project_id = st := by
  obtain ⟨r0, h0, hmem, hpid⟩ := @find?_pid_mem df r.project_id
    (List.mem_map.mpr ⟨r, hr, rfl⟩)
  have hss : r0.status = r.status := hcons r0 hmem r hr hpid
  unfold statusOfPid
  rw [h0]
  simp [hss, hst]

/-! ## Helper lemmas: idempotence infrastructure -/

theorem pyLower_idem (s : PyString) : pyLower (pyLower s) = pyLower s := by
  show (s.map pyLowerChar).map pyLowerChar = s.map pyLowerChar
  rw [List.map_map]
  exact List.map_congr_left fun c _ => pyLowerChar_idem c

theorem not_sentinel_of_no_n {s : PyString} (h : 'n' ∉ s) :
    s ∉ nullSentinels := by
  intro hmem
  have hn : ∀ w ∈ nullSentinels, 'n' ∈ w := by decide
  exact h (hn s hmem)

theorem no_n_of_numChar {s : PyString} (h : ∀ c ∈ s, numChar c = true) :
    'n' ∉ s := fun hmem => absurd (h 'n' hmem) (by decide)

theorem isNullLike_num_dec (m : ℤ) (e : ℕ) :
    isNullLike (.num (.dec m e)) = false := by
  have hchars := numChar_pyStr_dec m e
  have hlow : pyLower (pyStr (.dec m e)) = pyStr (.dec m e) :=
    pyLower_numChar hchars
  have hsent : pyStr (.dec m e) ∉ nullSentinels :=
    not_sentinel_of_no_n (no_n_of_numChar hchars)
  simp [isNullLike, pdIsna, pyStrOf, hlow, hsent]

theorem mem_of_head?_eq {l : PyString} {c : Char} (h : l.head? = some c) :
    c ∈ l := by
  cases l with
  | nil => cases h
  | cons a t =>
    simp only [List.head?_cons, Option.some.injEq] at h
    rw [← h]
    simp

theorem dropWhile_eq_self_of_all {p : Char → Bool} {l : PyString}
    (h : ∀ c ∈ l, p c = false) : l.dropWhile p = l :=
  dropWhile_eq_self_of_head fun c hc => h c (mem_of_head?_eq hc)

theorem stripQuotes_eq_self {s : PyString}
    (h : ∀ c ∈ s, quoteChar c = false) : stripQuotes s = s := by
  unfold stripQuotes
  rw [dropWhile_eq_self_of_all h,
    dropWhile_eq_self_of_all (fun c hc => h c (by simpa using hc)),
    List.reverse_reverse]

theorem removeChar_append_singleton (a : Char) {s : PyString}
    (h : ∀ c ∈ s, c ≠ a) : removeChar a (s ++ [a]) = s := by
  unfold removeChar
  rw [List.filter_append]
  have h1 : s.filter (· ≠ a) = s := List.filter_eq_self.mpr (by
    intro c hc
    simpa using h c hc)
  have h2 : ([a] : PyString).filter (· ≠ a) = [] := by simp
  rw [h1, h2, List.append_nil]

theorem lookup_mem_pairs {l : List (PyString × PyString)} {k v : PyString} :
    l.lookup k = some v → (k, v) ∈ l := by
  induction l with
  | nil => intro h; cases h
  | cons p t ih =>
    obtain ⟨a, b⟩ := p
    intro h
    by_cases he : k = a
    · subst he
      have hl : List.lookup k ((k, b) :: t) = some b := by simp [List.lookup]
      rw [hl] at h
      simp only [Option.some.injEq] at h
      subst h
      simp
    · have hb : (k == a) = false := by simp [he]
      have hl : List.lookup k ((a, b) :: t) = List.lookup k t := by
        simp [List.lookup, hb]
      rw [hl] at h
      exact List.mem_cons_of_mem _ (ih h)

theorem currencyStrip_false_of_numChar {c : Char} (h : numChar c = true) :
    currencyStripChar c = false := by
  rcases eq_of_numChar h with hd | he | he
  · have hne : ∀ x : Char, isDigitB x = false → (c = x) = False :=
      fun x hx => eq_false (ne_of_digit_of_not hd hx)
    simp [currencyStripChar, hne 'R' (by decide), hne '$' (by decide),
      hne '(' (by decide), hne ')' (by decide), hne 'e' (by decide),
      hne 's' (by decide), hne 't' (by decide), hne 'i' (by decide),
      hne 'm' (by decide), ws_false_of_digit hd]
  · subst he; decide
  · subst he; decide

theorem mem_of_mem_readSign {u : PyString} {c : Char}
    (h : c ∈ (readSign u).2) : c ∈ u := by
  cases u with
  | nil => exact h
  | cons a t =>
    have h2 : c ∈ (if a = '+' then ((false : Bool), t)
        else if a = '-' then (true, t) else (false, a :: t)).2 := h
    split_ifs at h2
    · exact List.mem_cons_of_mem _ h2
    · exact List.mem_cons_of_mem _ h2
    · exact h2

theorem pyLowerChar_i {c : Char} (h : pyLowerChar c = 'i') :
    c = 'i' ∨ c = 'I' := by
  unfold pyLowerChar at h
  cases hl : lowerTable.lookup c with
  | none =>
    rw [hl] at h
    simp only [Option.getD_none] at h
    exact Or.inl h
  | some b =>
    rw [hl] at h
    simp only [Option.getD_some] at h
    subst h
    have hrel := lookup_rel (fun a b2 => b2 = 'i' → a = 'I') (by decide) hl
    exact Or.inr (hrel rfl)

theorem dot_mem_pyStr_dec (m : ℤ) (e : ℕ) : '.' ∈ pyStr (.dec m e) := by
  cases e with
  | zero =>
    show '.' ∈ intDigits m ++ ['.', '0']
    simp
  | succ e =>
    show '.' ∈ (if m < 0 then ['-'] else []) ++ natDigits (m.natAbs / 10 ^ (e + 1)) ++
      '.' :: natPad (e + 1) (m.natAbs % 10 ^ (e + 1))
    simp

theorem isNullLike_str_out {t : PyString} (hne : t ≠ [])
    (hsent : pyLower t ∉ nullSentinels) : isNullLike (.str t) = false := by
  simp [isNullLike, pdIsna, pyStrOf, hne, hsent]

theorem prioridade_out_idem {t : PyString} (hlow : pyLower t = t)
    (hstrip : pyStrip t = t) (hsent : pyLower t ∉ nullSentinels)
    (hne : t ≠ []) : standardize_prioridade (.str t) = .str t := by
  unfold standardize_prioridade
  rw [isNullLike_str_out hne hsent]
  show PyVal.str (pyLower (pyStrip t)) = .str t
  rw [hstrip, hlow]

theorem prioridade_idem (v : PyVal)
    (hsent : NotSentinelOut (standardize_prioridade v)) :
    standardize_prioridade (standardize_prioridade v) =
      standardize_prioridade v := by
  by_cases hnull : isNullLike v = true
  · have hout : standardize_prioridade v = .str [] := by
      unfold standardize_prioridade
      rw [if_pos hnull]
    rw [hout]
    decide
  · have hnull2 : isNullLike v = false := by simpa using hnull
    have hout : standardize_prioridade v =
        .str (pyLower (pyStrip (pyStrOf v))) := by
      unfold standardize_prioridade
      rw [hnull2]
      rfl
    by_cases hte : pyLower (pyStrip (pyStrOf v)) = []
    · rw [hout, hte]
      decide
    · have hlow : pyLower (pyLower (pyStrip (pyStrOf v))) =
          pyLower (pyStrip (pyStrOf v)) := pyLower_idem _
      have hstrip : pyStrip (pyLower (pyStrip (pyStrOf v))) =
          pyLower (pyStrip (pyStrOf v)) := by
        show pyStrip ((pyStrip (pyStrOf v)).map pyLowerChar) =
          (pyStrip (pyStrOf v)).map pyLowerChar
        rw [pyStrip_map_comm ws_pyLowerChar, pyStrip_idem]
      rw [hout]
      exact prioridade_out_idem hlow hstrip (hsent _ hout) hte

theorem status_out_fallback_idem {t : PyString}
    (hlook : statusMapping.lookup t = Option.none)
    (hlow : pyLower t = t) (hacc : removeAccents t = t) (hstrip : pyStrip t = t)
    (hsent : pyLower t ∉ nullSentinels) (hne : t ≠ []) :
    standardize_status (.str t) = .str t := by
  unfold standardize_status
  rw [isNullLike_str_out hne hsent]
  show statusLookup (removeAccents (pyLower (pyStrip t))) = .str t
  rw [hstrip, hlow, hacc]
  unfold statusLookup
  rw [hlook]

theorem status_idem (v : PyVal)
    (hsent : NotSentinelOut (standardize_status v)) :
    standardize_status (standardize_status v) = standardize_status v := by
  by_cases hnull : isNullLike v = true
  · have hout : standardize_status v = .str [] := by
      unfold standardize_status
      rw [if_pos hnull]
    rw [hout]
    decide
  · have hnull2 : isNullLike v = false := by simpa using hnull
    have hout : standardize_status v =
        statusLookup (removeAccents (pyLower (pyStrip (pyStrOf v)))) := by
      unfold standardize_status
      rw [hnull2]
      rfl
    cases hlook : statusMapping.lookup
        (removeAccents (pyLower (pyStrip (pyStrOf v)))) with
    | some r =>
      have hmem := lookup_mem_pairs hlook
      have hall : ∀ p ∈ statusMapping,
          standardize_status (.str p.2) = .str p.2 := by decide
      have hout2 : standardize_status v = .str r := by
        rw [hout]
        unfold statusLookup
        rw [hlook]
      rw [hout2]
      exact hall _ hmem
    | none =>
      have hout2 : standardize_status v =
          .str (removeAccents (pyLower (pyStrip (pyStrOf v)))) := by
        rw [hout]
        unfold statusLookup
        rw [hlook]
      by_cases hte : removeAccents (pyLower (pyStrip (pyStrOf v))) = []
      · rw [hout2, hte]
        decide
      · have hlow : pyLower (removeAccents (pyLower (pyStrip (pyStrOf v)))) =
            removeAccents (pyLower (pyStrip (pyStrOf v))) := by
          show (((pyStrip (pyStrOf v)).map pyLowerChar).map deaccentChar).map
              pyLowerChar =
            ((pyStrip (pyStrOf v)).map pyLowerChar).map deaccentChar
          rw [List.map_map, List.map_map, List.map_map]
          exact List.map_congr_left fun c _ => pyLowerChar_deaccent_lower c
        have hacc : removeAccents (removeAccents (pyLower (pyStrip (pyStrOf v)))) =
            removeAccents (pyLower (pyStrip (pyStrOf v))) := by
          show (((pyStrip (pyStrOf v)).map pyLowerChar).map deaccentChar).map
              deaccentChar =
            ((pyStrip (pyStrOf v)).map pyLowerChar).map deaccentChar
          rw [List.map_map, List.map_map, List.map_map]
          exact List.map_congr_left fun c _ => deaccentChar_idem _
        have hstrip : pyStrip (removeAccents (pyLower (pyStrip (pyStrOf v)))) =
            removeAccents (pyLower (pyStrip (pyStrOf v))) := by
          show pyStrip (((pyStrip (pyStrOf v)).map pyLowerChar).map deaccentChar) =
            ((pyStrip (pyStrOf v)).map pyLowerChar).map deaccentChar
          rw [pyStrip_map_comm ws_deaccentChar, pyStrip_map_comm ws_pyLowerChar,
            pyStrip_idem]
        rw [hout2]
        exact status_out_fallback_idem hlook hlow hacc hstrip (hsent _ hout2) hte

theorem approvalBranches_cases (t : PyString) :
    approvalBranches t = .str "Sim".toList ∨
    approvalBranches t = .str "Não".toList ∨
    approvalBranches t = .str t := by
  unfold approvalBranches
  split_ifs <;> simp

theorem approval_fallback_idem {t : PyString} (hb : approvalBranches t = .str t)
    (hstrip : pyStrip t = t) (hsent : pyLower t ∉ nullSentinels) (hne : t ≠ []) :
    standardize_approval (.str t) = .str t := by
  unfold standardize_approval
  rw [isNullLike_str_out hne hsent]
  show approvalBranches (pyStrip t) = .str t
  rw [hstrip]
  exact hb

theorem approval_idem (v : PyVal)
    (hsent : NotSentinelOut (standardize_approval v)) :
    standardize_approval (standardize_approval v) = standardize_approval v := by
  by_cases hnull : isNullLike v = true
  · have hout : standardize_approval v = .str [] := by
      unfold standardize_approval
      rw [if_pos hnull]
    rw [hout]
    decide
  · have hnull2 : isNullLike v = false := by simpa using hnull
    have hout : standardize_approval v = approvalBranches (pyStrip (pyStrOf v)) := by
      unfold standardize_approval
      rw [hnull2]
      rfl
    rcases approvalBranches_cases (pyStrip (pyStrOf v)) with hb | hb | hb
    · rw [hout, hb]
      decide
    · rw [hout, hb]
      decide
    · by_cases hte : pyStrip (pyStrOf v) = []
      · rw [hout, hb, hte]
        decide
      · rw [hout, hb]
        exact approval_fallback_idem hb (pyStrip_idem _)
          (hsent _ (by rw [hout, hb])) hte

theorem remoteBranches_cases (t : PyString) :
    remoteBranches t = .str "Híbrido".toList ∨
    remoteBranches t = .str "Sim".toList ∨
    remoteBranches t = .str "Não".toList ∨
    remoteBranches t = .str t := by
  unfold remoteBranches
  split_ifs <;> simp

theorem remote_fallback_idem {t : PyString} (hb : remoteBranches t = .str t)
    (hstrip : pyStrip t = t) (hsent : pyLower t ∉ nullSentinels) (hne : t ≠ []) :
    standardize_remote (.str t) = .str t := by
  unfold standardize_remote
  rw [isNullLike_str_out hne hsent]
  show remoteBranches (pyStrip t) = .str t
  rw [hstrip]
  exact hb

theorem remote_idem (v : PyVal)
    (hsent : NotSentinelOut (standardize_remote v)) :
    standardize_remote (standardize_remote v) = standardize_remote v := by
  by_cases hnull : isNullLike v = true
  · have hout : standardize_remote v = .str [] := by
      unfold standardize_remote
      rw [if_pos hnull]
    rw [hout]
    decide
  · have hnull2 : isNullLike v = false := by simpa using hnull
    have hout : standardize_remote v = remoteBranches (pyStrip (pyStrOf v)) := by
      unfold standardize_remote
      rw [hnull2]
      rfl
    rcases remoteBranches_cases (pyStrip (pyStrOf v)) with hb | hb | hb | hb
    · rw [hout, hb]
      decide
    · rw [hout, hb]
      decide
    · rw [hout, hb]
      decide
    · by_cases hte : pyStrip (pyStrOf v) = []
      · rw [hout, hb, hte]
        decide
      · rw [hout, hb]
        exact remote_fallback_idem hb (pyStrip_idem _)
          (hsent _ (by rw [hout, hb])) hte

theorem numChar_intDigits (n : ℤ) : ∀ c ∈ intDigits n, numChar c = true := by
  intro c hc
  unfold intDigits at hc
  split_ifs at hc
  · rcases List.mem_cons.mp hc with he | hm
    · subst he; decide
    · exact numChar_of_digit (natDigits_digits _ c hm)
  · exact numChar_of_digit (natDigits_digits _ c hc)

theorem standardize_conclusao_numstr {u : PyString} {x : PyFloat}
    (hchars : ∀ c ∈ u, numChar c = true)
    (hparse : pyFloat? u = some x) :
    standardize_conclusao (.str (u ++ ['%'])) = conclusaoRender false x := by
  have hn : 'n' ∉ u ++ ['%'] := by
    intro hmem
    rcases List.mem_append.mp hmem with hm | hm
    · exact no_n_of_numChar hchars hm
    · simp at hm
  have hlow : pyLower (u ++ ['%']) = u ++ ['%'] := by
    apply map_fix
    intro c hc
    rcases List.mem_append.mp hc with hm | hm
    · exact pyLowerChar_numChar (hchars c hm)
    · simp only [List.mem_singleton] at hm
      subst hm
      exact pyLowerChar_fix (by decide)
  have hnull : isNullLike (.str (u ++ ['%'])) = false := by
    simp [isNullLike, pdIsna, pyStrOf, hlow, not_sentinel_of_no_n hn]
  have hstrip : pyStrip (u ++ ['%']) = u ++ ['%'] := by
    apply pyStrip_eq_self
    intro c hc
    rcases List.mem_append.mp hc with hm | hm
    · exact ws_false_of_numChar (hchars c hm)
    · simp only [List.mem_singleton] at hm
      subst hm
      decide
  have hrem : removeChar '%' (u ++ ['%']) = u :=
    removeChar_append_singleton '%' fun c hc =>
      ne_of_numChar (hchars c hc) (by decide)
  have hcomma : u.contains ',' = false := by
    have hnm : ',' ∉ u := fun hmem => absurd (hchars ',' hmem) (by decide)
    simpa using hnm
  unfold standardize_conclusao
  rw [hnull]
  simp only [pyStrOf]
  rw [hstrip, hrem, hcomma, hparse]
  rfl

theorem standardize_conclusao_commastr {u : PyString} {x : PyFloat}
    (hchars : ∀ c ∈ u, numChar c = true) (hdot : '.' ∈ u) (hnoc : ',' ∉ u)
    (hparse : pyFloat? u = some x) :
    standardize_conclusao (.str (mapChar '.' ',' u ++ ['%'])) =
      conclusaoRender true x := by
  have hmemw : ∀ c ∈ mapChar '.' ',' u, c = ',' ∨ numChar c = true := by
    intro c hc
    by_cases he : c = ','
    · exact Or.inl he
    · exact Or.inr (hchars c (mem_of_mem_mapChar hc he))
  have hn : 'n' ∉ mapChar '.' ',' u ++ ['%'] := by
    intro hmem
    rcases List.mem_append.mp hmem with hm | hm
    · rcases hmemw 'n' hm with he | he
      · exact absurd he (by decide)
      · exact absurd he (by decide)
    · simp at hm
  have hlow : pyLower (mapChar '.' ',' u ++ ['%']) = mapChar '.' ',' u ++ ['%'] := by
    apply map_fix
    intro c hc
    rcases List.mem_append.mp hc with hm | hm
    · rcases hmemw c hm with he | he
      · subst he
        exact pyLowerChar_fix (by decide)
      · exact pyLowerChar_numChar he
    · simp only [List.mem_singleton] at hm
      subst hm
      exact pyLowerChar_fix (by decide)
  have hnull : isNullLike (.str (mapChar '.' ',' u ++ ['%'])) = false := by
    simp [isNullLike, pdIsna, pyStrOf, hlow, not_sentinel_of_no_n hn]
  have hstrip : pyStrip (mapChar '.' ',' u ++ ['%']) =
      mapChar '.' ',' u ++ ['%'] := by
    apply pyStrip_eq_self
    intro c hc
    rcases List.mem_append.mp hc with hm | hm
    · rcases hmemw c hm with he | he
      · subst he
        decide
      · exact ws_false_of_numChar he
    · simp only [List.mem_singleton] at hm
      subst hm
      decide
  have hrem : removeChar '%' (mapChar '.' ',' u ++ ['%']) = mapChar '.' ',' u :=
    removeChar_append_singleton '%' (by
      intro c hc
      rcases hmemw c hc with he | he
      · subst he
        decide
      · exact ne_of_numChar he (by decide))
  have hcomma : (mapChar '.' ',' u).contains ',' = true := by
    simpa using mem_mapChar_self hdot
  have hcancel : mapChar ',' '.' (mapChar '.' ',' u) = u := mapChar_mapChar_cancel hnoc
  unfold standardize_conclusao
  rw [hnull]
  simp only [pyStrOf]
  rw [hstrip, hrem, hcomma, hcancel, hparse]
  rfl

theorem conclusaoRender_int {n : ℤ} (h : n ≤ 100) :
    conclusaoRender false (.dec n 0) = .str (intDigits n ++ ['%']) := by
  by_cases hlt : n < 100
  · have hlt2 : pyLt100 (.dec n 0) = true := by
      simp [pyLt100]
      omega
    have hmin : pyMin100 (.dec n 0) = .dec n 0 := by
      unfold pyMin100
      rw [if_pos hlt2]
    unfold conclusaoRender
    rw [hmin]
    rfl
  · have hn : n = 100 := by omega
    subst hn
    decide

theorem pyMin100_int_cases {x : PyFloat} (hint : pyIsInteger (pyMin100 x) = true) :
    ∃ n : ℤ, n ≤ 100 ∧ pyMin100 x = .dec n 0 := by
  unfold pyMin100 at hint ⊢
  by_cases hlt : pyLt100 x = true
  · rw [if_pos hlt] at hint ⊢
    cases x with
    | dec m e =>
      cases e with
      | zero =>
        refine ⟨m, ?_, rfl⟩
        have hm : m < 100 * 10 ^ 0 := by simpa [pyLt100] using hlt
        simp at hm
        omega
      | succ e => exact absurd hint (by simp [pyIsInteger])
    | nan => exact absurd hint (by simp [pyIsInteger])
    | inf b => exact absurd hint (by simp [pyIsInteger])
  · rw [if_neg hlt] at hint ⊢
    exact ⟨100, le_refl _, rfl⟩

theorem pyMin100_nonint_cases {x : PyFloat} (hx : Normalized x)
    (hint : pyIsInteger (pyMin100 x) = false) :
    (∃ m e, x = .dec m (e + 1) ∧ m % 10 ≠ 0 ∧ pyMin100 x = x) ∨
    (x = .inf true ∧ pyMin100 x = x) := by
  unfold pyMin100 at hint ⊢
  by_cases hlt : pyLt100 x = true
  · rw [if_pos hlt] at hint ⊢
    cases x with
    | dec m e =>
      cases e with
      | zero => exact absurd hint (by simp [pyIsInteger])
      | succ e =>
        have hx2 : e + 1 = 0 ∨ m % 10 ≠ 0 := hx
        rcases hx2 with h0 | h0
        · exact absurd h0 (by omega)
        · exact Or.inl ⟨m, e, rfl, h0, rfl⟩
    | nan => exact absurd hlt (by simp [pyLt100])
    | inf b =>
      cases b with
      | true => exact Or.inr ⟨rfl, rfl⟩
      | false => exact absurd hlt (by simp [pyLt100])
  · rw [if_neg hlt] at hint
    exact absurd hint (by simp [pyIsInteger])

theorem conclusao_render_idem {x : PyFloat} (hx : Normalized x) (comma : Bool) :
    standardize_conclusao (conclusaoRender comma x) = conclusaoRender comma x := by
  by_cases hint : pyIsInteger (pyMin100 x) = true
  · obtain ⟨n, hle, hmin⟩ := pyMin100_int_cases hint
    have hout : conclusaoRender comma x = .str (intDigits n ++ ['%']) := by
      unfold conclusaoRender
      rw [if_pos hint, hmin]
      rfl
    rw [hout, standardize_conclusao_numstr (numChar_intDigits n)
      (pyFloat?_intDigits n), conclusaoRender_int hle]
  · have hint2 : pyIsInteger (pyMin100 x) = false := by simpa using hint
    rcases pyMin100_nonint_cases hx hint2 with ⟨m, e, hxe, hm10, hmin⟩ | ⟨hxe, hmin⟩
    · subst hxe
      have hchars := numChar_pyStr_dec m (e + 1)
      have hrt : pyFloat? (pyStr (.dec m (e + 1))) = some (.dec m (e + 1)) :=
        pyStr_dec_roundTrip (Or.inr hm10)
      cases comma with
      | false =>
        have hout : conclusaoRender false (.dec m (e + 1)) =
            .str (pyStr (.dec m (e + 1)) ++ ['%']) := by
          unfold conclusaoRender
          rw [hmin, if_neg (by simp [pyIsInteger])]
          rfl
        rw [hout, standardize_conclusao_numstr hchars hrt]
        exact hout
      | true =>
        have hout : conclusaoRender true (.dec m (e + 1)) =
            .str (mapChar '.' ',' (pyStr (.dec m (e + 1))) ++ ['%']) := by
          unfold conclusaoRender
          rw [hmin, if_neg (by simp [pyIsInteger])]
          rfl
        have hdot := dot_mem_pyStr_dec m (e + 1)
        have hnoc : ',' ∉ pyStr (.dec m (e + 1)) := fun hm2 =>
          absurd (hchars ',' hm2) (by decide)
        rw [hout, standardize_conclusao_commastr hchars hdot hnoc hrt]
        exact hout
    · subst hxe
      have hout : conclusaoRender comma (.inf true) =
          .str ['-', 'i', 'n', 'f', '%'] := by
        cases comma <;> decide
      rw [hout]
      decide

theorem conclusao_idem (v : PyVal) :
    standardize_conclusao (standardize_conclusao v) = standardize_conclusao v := by
  by_cases hnull : isNullLike v = true
  · have hout : standardize_conclusao v = .str [] := by
      unfold standardize_conclusao
      rw [if_pos hnull]
    rw [hout]
    decide
  · have hnull2 : isNullLike v = false := by simpa using hnull
    by_cases hcomma : (removeChar '%' (pyStrip (pyStrOf v))).contains ',' = true
    · cases hp : pyFloat? (mapChar ',' '.' (removeChar '%' (pyStrip (pyStrOf v)))) with
      | none =>
        have hout : standardize_conclusao v = .str [] := by
          unfold standardize_conclusao
          rw [hnull2, hcomma, hp]
          rfl
        rw [hout]
        decide
      | some x =>
        have hout : standardize_conclusao v = conclusaoRender true x := by
          unfold standardize_conclusao
          rw [hnull2, hcomma, hp]
          rfl
        rw [hout]
        exact conclusao_render_idem (pyFloat?_normalized hp) true
    · have hcomma2 : (removeChar '%' (pyStrip (pyStrOf v))).contains ',' = false := by
        simpa using hcomma
      cases hp : pyFloat? (removeChar '%' (pyStrip (pyStrOf v))) with
      | none =>
        have hout : standardize_conclusao v = .str [] := by
          unfold standardize_conclusao
          rw [hnull2, hcomma2, hp]
          rfl
        rw [hout]
        decide
      | some x =>
        have hout : standardize_conclusao v = conclusaoRender false x := by
          unfold standardize_conclusao
          rw [hnull2, hcomma2, hp]
          rfl
        rw [hout]
        exact conclusao_render_idem (pyFloat?_normalized hp) false

theorem quote_false_of_numChar {c : Char} (h : numChar c = true) :
    quoteChar c = false := by
  rcases eq_of_numChar h with hd | he | he
  · have hne : ∀ x : Char, isDigitB x = false → (c = x) = False :=
      fun x hx => eq_false (ne_of_digit_of_not hd hx)
    simp [quoteChar, hne '"' (by decide), hne (Char.ofNat 39) (by decide)]
  · subst he; decide
  · subst he; decide

theorem applyTypos_false (w : PyString) :
    applyTypos false w = mapChar 'B' '8' (mapChar 'G' '6' (mapChar 'S' '5'
      (mapChar 'l' '1' (mapChar 'I' '1' (mapChar 'O' '0' w))))) := rfl

theorem applyTypos_true (w : PyString) :
    applyTypos true w = mapChar 'B' '8' (mapChar 'G' '6' (mapChar 'S' '5'
      (mapChar 'l' '1' (mapChar 'I' '1' w)))) := rfl

theorem I_not_mem_applyTypos (od : Bool) (w : PyString) :
    'I' ∉ applyTypos od w := by
  cases od
  · rw [applyTypos_false]
    intro hmem
    have h1 := mem_of_mem_mapChar hmem (by decide)
    have h2 := mem_of_mem_mapChar h1 (by decide)
    have h3 := mem_of_mem_mapChar h2 (by decide)
    have h4 := mem_of_mem_mapChar h3 (by decide)
    exact not_mem_mapChar (by decide) h4
  · rw [applyTypos_true]
    intro hmem
    have h1 := mem_of_mem_mapChar hmem (by decide)
    have h2 := mem_of_mem_mapChar h1 (by decide)
    have h3 := mem_of_mem_mapChar h2 (by decide)
    have h4 := mem_of_mem_mapChar h3 (by decide)
    exact not_mem_mapChar (by decide) h4

theorem i_not_mem_currencyCleaned (s : PyString) : 'i' ∉ currencyCleaned s := by
  intro hmem
  unfold currencyCleaned at hmem
  have h2 := List.of_mem_filter hmem
  simp only [currencyStripChar] at h2
  simp at h2

theorem I_not_mem_currencyCleaned (s : PyString) : 'I' ∉ currencyCleaned s := by
  intro hmem
  unfold currencyCleaned at hmem
  exact I_not_mem_applyTypos _ _ (List.mem_of_mem_filter hmem)

theorem mem_currencySepFix {u : PyString} {c : Char}
    (h : c ∈ currencySepFix u) : c = '.' ∨ c ∈ u := by
  unfold currencySepFix at h
  split_ifs at h
  · by_cases hc : c = '.'
    · exact Or.inl hc
    · exact Or.inr (List.mem_of_mem_filter (mem_of_mem_mapChar h hc))
  · exact Or.inr (List.mem_of_mem_filter h)
  · by_cases hc : c = '.'
    · exact Or.inl hc
    · exact Or.inr (List.mem_of_mem_filter (mem_of_mem_mapChar h hc))
  · exact Or.inr h

theorem no_inf_of_no_i {t : PyString} (h1 : 'i' ∉ t) (h2 : 'I' ∉ t)
    {neg : Bool} {x : PyFloat} (hx : pyFloatSigned neg t = some x) :
    ∀ b, x ≠ .inf b := by
  unfold pyFloatSigned at hx
  split_ifs at hx with hn hi
  · simp only [Option.some.injEq] at hx
    intro b
    rw [← hx]
    simp
  · exfalso
    have hmem : 'i' ∈ pyLower t := by
      rcases hi with hi | hi
      · have he : pyLower t = ['i', 'n', 'f'] := by simpa [eqCI] using hi
        rw [he]
        simp
      · have he : pyLower t = ['i', 'n', 'f', 'i', 'n', 'i', 't', 'y'] := by
          simpa [eqCI] using hi
        rw [he]
        simp
    rcases List.mem_map.mp hmem with ⟨c, hc, hcl⟩
    rcases pyLowerChar_i hcl with he | he
    · exact h1 (he ▸ hc)
    · exact h2 (he ▸ hc)
  · intro b
    obtain ⟨a, e2, he⟩ := pyFloatBody_is_dec hx
    rw [he]
    simp

theorem currency_out_inv {v : PyVal} {x : PyFloat}
    (hout : standardize_currency v = .num x) :
    pyFloat? (currencySepFix (currencyCleaned (pyStrOf v))) = some x := by
  unfold standardize_currency at hout
  by_cases hnull : isNullLike v = true
  · rw [if_pos hnull] at hout
    cases hout
  · rw [if_neg hnull] at hout
    cases hp : pyFloat? (currencySepFix (currencyCleaned (pyStrOf v))) with
    | none =>
      rw [hp] at hout
      cases hout
    | some y =>
      rw [hp] at hout
      cases hout
      rfl

theorem currency_out_not_inf {v : PyVal} {x : PyFloat}
    (hout : standardize_currency v = .num x) (b : Bool) : x ≠ .inf b := by
  have hp := currency_out_inv hout
  unfold pyFloat? at hp
  refine no_inf_of_no_i ?_ ?_ hp b
  · intro hmem
    have hm1 := mem_of_mem_pyStrip (mem_of_mem_readSign hmem)
    rcases mem_currencySepFix hm1 with he | he
    · exact absurd he (by decide)
    · exact i_not_mem_currencyCleaned _ he
  · intro hmem
    have hm1 := mem_of_mem_pyStrip (mem_of_mem_readSign hmem)
    rcases mem_currencySepFix hm1 with he | he
    · exact absurd he (by decide)
    · exact I_not_mem_currencyCleaned _ he

theorem currencyCleaned_numstr (m : ℤ) (e : ℕ) :
    currencyCleaned (pyStr (.dec m e)) = pyStr (.dec m e) := by
  have hchars := numChar_pyStr_dec m e
  have hstrip : pyStrip (pyStr (.dec m e)) = pyStr (.dec m e) :=
    pyStrip_numChar hchars
  have hlow : pyLower (pyStr (.dec m e)) = pyStr (.dec m e) := pyLower_numChar hchars
  have ho : (pyLower (pyStrip (pyStr (.dec m e)))).contains 'o' = false := by
    rw [hstrip, hlow]
    have hnm : 'o' ∉ pyStr (.dec m e) := fun hm =>
      absurd (hchars 'o' hm) (by decide)
    simpa using hnm
  have hne : ∀ x : Char, numChar x = false → x ∉ pyStr (.dec m e) :=
    fun x hx hm => absurd (hchars _ hm) (by simp [hx])
  unfold currencyCleaned
  rw [ho]
  simp only [Bool.false_eq_true, if_false]
  rw [hstrip, applyTypos_false,
    mapChar_eq_self (hne 'O' (by decide)), mapChar_eq_self (hne 'I' (by decide)),
    mapChar_eq_self (hne 'l' (by decide)), mapChar_eq_self (hne 'S' (by decide)),
    mapChar_eq_self (hne 'G' (by decide)), mapChar_eq_self (hne 'B' (by decide))]
  exact List.filter_eq_self.mpr (by
    intro c hc
    simp [currencyStrip_false_of_numChar (hchars c hc)])

theorem currencySepFix_numstr (m : ℤ) (e : ℕ) :
    currencySepFix (pyStr (.dec m e)) = pyStr (.dec m e) := by
  have hchars := numChar_pyStr_dec m e
  have hnm : ',' ∉ pyStr (.dec m e) := fun hm =>
    absurd (hchars ',' hm) (by decide)
  unfold currencySepFix
  rw [if_neg (by simp [hnm]), if_neg (by simp [hnm])]

theorem currency_idem (v : PyVal)
    (hok : ∀ x, standardize_currency v = .num x → x ≠ .nan ∧ NonScientific x) :
    standardize_currency (standardize_currency v) = standardize_currency v := by
  cases hout : standardize_currency v with
  | null =>
    exfalso
    unfold standardize_currency at hout
    by_cases hnull : isNullLike v = true
    · rw [if_pos hnull] at hout
      cases hout
    · rw [if_neg hnull] at hout
      cases hp : pyFloat? (currencySepFix (currencyCleaned (pyStrOf v))) <;>
        rw [hp] at hout <;> cases hout
  | str s =>
    have hs : s = [] := by
      unfold standardize_currency at hout
      by_cases hnull : isNullLike v = true
      · rw [if_pos hnull] at hout
        cases hout
        rfl
      · rw [if_neg hnull] at hout
        cases hp : pyFloat? (currencySepFix (currencyCleaned (pyStrOf v))) <;>
          rw [hp] at hout
        · cases hout
          rfl
        · cases hout
    subst hs
    decide
  | num x =>
    have hpv := currency_out_inv hout
    have hnorm : Normalized x := pyFloat?_normalized hpv
    cases x with
    | nan => exact absurd rfl (hok _ hout).1
    | inf b => exact absurd rfl (currency_out_not_inf hout b)
    | dec m e =>
      unfold standardize_currency
      rw [if_neg (by simp [isNullLike_num_dec m e])]
      have hpy : pyStrOf (.num (.dec m e)) = pyStr (.dec m e) := rfl
      rw [hpy, currencyCleaned_numstr, currencySepFix_numstr,
        roundTrips_normalized hnorm]

theorem pyAdd_normal (a b : PyFloat) : Normalized (pyAdd a b) := by
  cases a with
  | nan => cases b <;> trivial
  | inf na =>
    cases b with
    | nan => trivial
    | inf nb =>
      show Normalized (if na = nb then PyFloat.inf na else .nan)
      split_ifs <;> trivial
    | dec m e => trivial
  | dec m1 e1 =>
    cases b with
    | nan => trivial
    | inf nb => trivial
    | dec m2 e2 => exact normDec_normal _ _

theorem hoursDecimalBranch_cases (ts : PyString) :
    hoursDecimalBranch ts = .null ∨
    ∃ x, hoursDecimalBranch ts = .num x ∧ Normalized x := by
  unfold hoursDecimalBranch
  cases hp : pyFloat? (mapChar ',' '.' ts) with
  | none => exact Or.inl rfl
  | some y => exact Or.inr ⟨y, rfl, pyFloat?_normalized hp⟩

theorem hoursParse_cases (ts : PyString) :
    hoursParse ts = .null ∨ ∃ x, hoursParse ts = .num x ∧ Normalized x := by
  unfold hoursParse
  split_ifs with hc
  · split
    · split
      · exact Or.inr ⟨_, rfl, pyAdd_normal _ _⟩
      · exact hoursDecimalBranch_cases ts
    · exact hoursDecimalBranch_cases ts
  · exact hoursDecimalBranch_cases ts

theorem hours_idem (v : PyVal)
    (hnan : ∀ x, convert_to_hours v = .num x → x ≠ .nan) :
    convert_to_hours (convert_to_hours v) = convert_to_hours v := by
  cases hout : convert_to_hours v with
  | null => decide
  | str s =>
    exfalso
    unfold convert_to_hours at hout
    by_cases hg : (pdIsna v || decide (v = PyVal.str [])) = true
    · rw [if_pos hg] at hout
      cases hout
    · rw [if_neg hg] at hout
      rcases hoursParse_cases (stripQuotes (pyStrip (pyStrOf v))) with hh | ⟨y, hy, _⟩
      · rw [hh] at hout
        cases hout
      · rw [hy] at hout
        cases hout
  | num x =>
    have hnorm : Normalized x := by
      unfold convert_to_hours at hout
      by_cases hg : (pdIsna v || decide (v = PyVal.str [])) = true
      · rw [if_pos hg] at hout
        cases hout
      · rw [if_neg hg] at hout
        rcases hoursParse_cases (stripQuotes (pyStrip (pyStrOf v))) with
          hh | ⟨y, hy, hny⟩
        · rw [hh] at hout
          cases hout
        · rw [hy] at hout
          cases hout
          exact hny
    cases x with
    | nan => exact absurd rfl (hnan _ hout)
    | inf b => cases b <;> decide
    | dec m e =>
      have hchars := numChar_pyStr_dec m e
      unfold convert_to_hours
      rw [if_neg (by simp [pdIsna])]
      have hpy : pyStrOf (.num (.dec m e)) = pyStr (.dec m e) := rfl
      rw [hpy, pyStrip_numChar hchars,
        stripQuotes_eq_self (fun c hc => quote_false_of_numChar (hchars c hc))]
      unfold hoursParse
      rw [if_neg (by
        have hnm : ':' ∉ pyStr (.dec m e) := fun hm =>
          absurd (hchars ':' hm) (by decide)
        simpa using hnm)]
      unfold hoursDecimalBranch
      rw [mapChar_eq_self (fun hm => absurd (hchars ',' hm) (by decide)),
        roundTrips_normalized hnorm]

/-! ## Claim theorems -/

/-- C1: in add_match_flags, the MatchQuality tag is "full" exactly when all
three source-presence flags are true, "partial" exactly when exactly two of
them are true, and "unmatched" otherwise — in particular a row with exactly
one contributing source is tagged "unmatched". -/
theorem C1_match_quality :
    ∀ p h c : Bool,
      (match_quality p h c = "full".toList ↔ (p = true ∧ h = true ∧ c = true)) ∧
      (match_quality p h c = "partial".toList ↔
        ((p && h && !c) || (p && !h && c) || (!p && h && c)) = true) ∧
      (match_quality p h c = "unmatched".toList ↔
        (!(p && h) && !(p && c) && !(h && c)) = true) := by
  decide

/-- C3 (counterexample): "2026-25-13" is exactly 10 characters with
separators at positions 4 and 7 and middle group 25 > 12, yet the
heuristic block of standardize_date leaves it unchanged instead of
rewriting it to "2026-13-25": the block additionally requires the last
group to be a plausible month (≤ 12). -/
theorem C3_heuristic_needs_small_month :
    ("2026-25-13".toList.length = 10 ∧
      sepChar '-' = true ∧
      pyInt? (dropSeps ['2', '5', '-']) = some 25 ∧ (12 : ℤ) < 25) ∧
    dateHeuristicFix "2026-25-13".toList = "2026-25-13".toList ∧
    "2026-25-13".toList ≠ "2026-13-25".toList := by
  refine ⟨by decide, by decide, by decide⟩

/-- C3 (amended): for a 10-character date string with separators at
positions 4 and 7 whose three groups parse as integers, whose middle group
exceeds 12 and whose final group is at most 12, standardize_date's
heuristic rewrites year-day-month to year-month-day before the format
list is tried; in particular "2026-25-01" is standardized to
"2026-01-25". -/
theorem C3_heuristic_rewrite (c0 c1 c2 c3 c4 c5 c6 c7 c8 c9 : Char)
    (y d m : ℤ)
    (h4 : sepChar c4 = true) (h7 : sepChar c7 = true)
    (hy : pyInt? [c0, c1, c2, c3] = some y)
    (hd : pyInt? (dropSeps [c5, c6, c7]) = some d)
    (hm : pyInt? (dropSeps [c8, c9]) = some m)
    (hdgt : 12 < d) (hmle : m ≤ 12) :
    dateHeuristicFix [c0, c1, c2, c3, c4, c5, c6, c7, c8, c9] =
      intPad 4 y ++ '-' :: intPad 2 m ++ '-' :: intPad 2 d ∧
    standardize_date (.str "2026-25-01".toList) = .str "2026-01-25".toList := by
  refine ⟨?_, by decide⟩
  simp only [dateHeuristicFix, h4, h7, hy, hd, hm, true_and, if_pos (And.intro hdgt hmle)]
  simp

/-- C3 (witness): the amended heuristic applies to "2026-25-01". -/
theorem C3_heuristic_rewrite_witness :
    dateHeuristicFix "2026-25-01".toList =
      intPad 4 (2026 : ℤ) ++ '-' :: intPad 2 (1 : ℤ) ++ '-' :: intPad 2 (25 : ℤ) ∧
    standardize_date (.str "2026-25-01".toList) = .str "2026-01-25".toList :=
  C3_heuristic_rewrite '2' '0' '2' '6' '-' '2' '5' '-' '0' '1' 2026 25 1
    (by decide) (by decide) (by decide) (by decide) (by decide)
    (by decide) (by decide)

/-- C4 (code bug): standardize_conclusao caps values above 100 with
min(100, ·) but never raises negative values, so "-5" yields "-5%", whose
value −5 lies outside the documented 0–100 range. -/
theorem C4_negative_not_clamped :
    standardize_conclusao (.str "-5".toList) = .str "-5%".toList ∧
    standardize_conclusao (.str "110%".toList) = .str "100%".toList ∧
    ¬ ((0 : ℤ) ≤ -5) := by
  refine ⟨by decide, by decide, by decide⟩

/-- C5 (code bug): standardize_conclusao parses "42,0%" to the float 42.0,
whose is_integer branch renders "42%", so the comma decimal form is not
preserved, contrary to the documented example "42,0%" → "42,0%"; the
comma is preserved only for non-integral values such as "15,1". -/
theorem C5_comma_not_preserved :
    standardize_conclusao (.str "42,0%".toList) = .str "42%".toList ∧
    "42%".toList ≠ "42,0%".toList ∧
    standardize_conclusao (.str "15,1".toList) = .str "15,1%".toList := by
  refine ⟨by decide, by decide, by decide⟩

/-- C7 (counterexample): the duration normalizer degrades unparseable
input to None rather than to the empty string: convert_to_hours("abc")
is None, not "". -/
theorem C7_hours_none_not_empty :
    convert_to_hours (.str "abc".toList) = .null ∧
    PyVal.null ≠ PyVal.str [] := by
  refine ⟨by decide, by decide⟩

/-- C8 (counterexample): on a joined table where one project identifier
carries two different statuses, the per-status distinct-project counts sum
to 2 while the total distinct project count is 1. -/
theorem C8_status_sum_cex :
    let df : List KpiRow :=
      [{ project_id := "p1".toList, status := some "em dia".toList,
         conclusao_clean := Option.none, custo_previsto_clean := 0, valor_clean := 0 },
       { project_id := "p1".toList, status := some "atrasado".toList,
         conclusao_clean := Option.none, custo_previsto_clean := 0, valor_clean := 0 }]
    (((calculate_kpis df).status_counts.map (·.2)).sum = 2 ∧
      (calculate_kpis df).total_projects = 1 ∧ (2 : ℕ) ≠ 1) := by
  refine ⟨by decide, by decide, by decide⟩

/-- C9 (counterexample): re-normalizing an already-normalized value can
change it: standardize_prioridade(" null") = "null" but
standardize_prioridade("null") = "", and standardize_currency(" nan")
is the float NaN while standardize_currency(NaN) = "". -/
theorem C9_idempotence_cex :
    (standardize_prioridade (.str " null".toList) = .str "null".toList ∧
      standardize_prioridade (.str "null".toList) = .str [] ∧
      PyVal.str "null".toList ≠ PyVal.str []) ∧
    (standardize_currency (.str " nan".toList) = .num .nan ∧
      standardize_currency (.num .nan) = .str [] ∧
      PyVal.num .nan ≠ PyVal.str []) := by
  refine ⟨⟨by decide, by decide, by decide⟩, ⟨by decide, by decide, by decide⟩⟩

/-- C10 (counterexample): a row with a blank identifier and a non-string,
non-null display name does not get the empty key: the numeric name 42.0 is
stringified and standardized to "420". -/
theorem C10_numeric_name_not_empty :
    match_project_key (.str []) (.num (.dec 42 0)) = "420".toList ∧
    "420".toList ≠ ([] : PyString) := by
  refine ⟨by decide, by decide⟩

/-- C2: whenever the cleaned currency text contains both ',' and '.', the
separator occurring rightmost is taken as the decimal separator and the
other one removed as thousands grouping, exactly the spec's rightmost-wins
rule; and the three documented examples "R$ 16.591,06", "R$ 25.000,0O" and
"R$ -5.000,00" produce the values 16591.06, 25000.0 and -5000.0. -/
theorem C2_rightmost_separator :
    (∀ s : PyString, ',' ∈ currencyCleaned s → '.' ∈ currencyCleaned s →
      currencySepFix (currencyCleaned s) = rightmostDecimalForm (currencyCleaned s)) ∧
    (standardize_currency (.str "R$ 16.591,06".toList) = .num (.dec 1659106 2) ∧
      (PyFloat.dec 1659106 2).toRat = some (16591.06 : ℚ)) ∧
    (standardize_currency (.str "R$ 25.000,0O".toList) = .num (.dec 25000 0) ∧
      (PyFloat.dec 25000 0).toRat = some (25000 : ℚ)) ∧
    (standardize_currency (.str "R$ -5.000,00".toList) = .num (.dec (-5000) 0) ∧
      (PyFloat.dec (-5000) 0).toRat = some (-5000 : ℚ)) := by
  refine ⟨?_, ⟨by decide, by simp [PyFloat.toRat]; norm_num⟩,
    ⟨by decide, by simp [PyFloat.toRat]⟩,
    ⟨by decide, by simp [PyFloat.toRat]⟩⟩
  intro s h1 h2
  have hc1 : (currencyCleaned s).contains ',' = true := by simpa using h1
  have hc2 : (currencyCleaned s).contains '.' = true := by simpa using h2
  unfold currencySepFix rightmostDecimalForm
  rw [if_pos (And.intro hc1 hc2)]
  by_cases hlt : lastPos '.' (currencyCleaned s) < lastPos ',' (currencyCleaned s)
  · rw [if_pos hlt, if_pos hlt]
  · rw [if_neg hlt, if_neg hlt, mapChar_self]

/-- C2 (witness): the rightmost-separator rule applies to the cleaned form
of "R$ 16.591,06". -/
theorem C2_rightmost_separator_witness :
    currencySepFix (currencyCleaned "R$ 16.591,06".toList) =
      rightmostDecimalForm (currencyCleaned "R$ 16.591,06".toList) :=
  C2_rightmost_separator.1 "R$ 16.591,06".toList (by decide) (by decide)

/-- C6: calculate_kpis sums the planned-cost column once per distinct
project identifier (each project contributing the planned cost of its
first joined row), sums the cost-entry column over all rows with no
deduplication, and the number of planned-cost summands is exactly
total_projects. -/
theorem C6_cost_aggregation (df : List KpiRow) :
    (calculate_kpis df).planned_costs =
      ∑ p ∈ (df.map (·.project_id)).toFinset, firstCusto df p ∧
    (calculate_kpis df).actual_costs = (df.map (·.valor_clean)).sum ∧
    (df.map (·.project_id)).toFinset.card = (calculate_kpis df).total_projects := by
  refine ⟨?_, rfl, ?_⟩
  · show ((dropDupFirst df []).map (·.custo_previsto_clean)).sum = _
    rw [dropDupFirst_sum df []]
    simp
  · show _ = nuniquePids df
    rw [List.card_toFinset]
    rfl

/-- C10 (amended): a row whose identifier cell is falsy, NA or
whitespace-blank and whose display-name cell is falsy or NA gets the empty
match key (a stringified non-null name such as a float instead yields a
nonempty key); the joined key universe holds each key exactly once and
holds a key exactly when some source row produces it, so all such
unidentifiable rows from the three sources attach to the same single
empty-key joined row. -/
theorem C10_blank_key_join :
    (∀ pid name : PyVal,
      (pyTruthy pid = false ∨ pdIsna pid = true ∨ pyStrip (pyStrOf pid) = []) →
      (pyTruthy name = false ∨ pdIsna name = true) →
      match_project_key pid name = []) ∧
    (∀ projetos horas custos : List SrcRow,
      (allMatchKeys projetos horas custos).Nodup ∧
      ∀ k, (k ∈ allMatchKeys projetos horas custos ↔
        ∃ r ∈ projetos ++ horas ++ custos,
          match_project_key r.project_id r.projeto = k)) := by
  constructor
  · intro pid name h1 h2
    unfold match_project_key
    rw [if_neg, if_neg]
    · rintro ⟨ht, hna⟩
      rcases h2 with h | h
      · rw [h] at ht; cases ht
      · exact hna h
    · rintro ⟨ht, hna, hst⟩
      rcases h1 with h | h | h
      · rw [h] at ht; cases ht
      · exact hna h
      · exact hst h
  · intro la lb lc
    refine ⟨List.nodup_dedup _, ?_⟩
    intro k
    rw [allMatchKeys, List.mem_dedup]
    simp only [List.mem_append, List.mem_map]
    constructor
    · rintro ((⟨r, hr, e⟩ | ⟨r, hr, e⟩) | ⟨r, hr, e⟩)
      · exact ⟨r, Or.inl (Or.inl hr), e⟩
      · exact ⟨r, Or.inl (Or.inr hr), e⟩
      · exact ⟨r, Or.inr hr, e⟩
    · rintro ⟨r, (hr | hr) | hr, e⟩
      · exact Or.inl (Or.inl ⟨r, hr, e⟩)
      · exact Or.inl (Or.inr ⟨r, hr, e⟩)
      · exact Or.inr ⟨r, hr, e⟩

/-- C10 (witness): a blank identifier with a null name yields the empty
key, and the key universe of empty sources is duplicate-free. -/
theorem C10_blank_key_join_witness :
    match_project_key (.str [' ']) PyVal.null = [] ∧
    (allMatchKeys [] [] []).Nodup :=
  ⟨C10_blank_key_join.1 (.str [' ']) .null (Or.inr (Or.inr (by decide)))
      (Or.inl (by decide)),
   (C10_blank_key_join.2 [] [] []).1⟩

/-- C7 (amended): every normalizer is a total function; when parsing fails
the date, percentage and currency normalizers return the empty string, the
duration normalizer returns None (not the empty string), and the
categorical normalizers (status, approval, remote) return a cleaned
fallback: status the accent-stripped lower-cased unmapped string, approval
and remote the trimmed original when no token branch matches. -/
theorem C7_fallback_values :
    (∀ v, isNullLike v = false →
      tryDateFormats dateFormats (dateHeuristicFix (pyStrip (pyStrOf v))) =
        Option.none →
      standardize_date v = .str []) ∧
    (∀ v, isNullLike v = false →
      ((removeChar '%' (pyStrip (pyStrOf v))).contains ',' = true →
        pyFloat? (mapChar ',' '.' (removeChar '%' (pyStrip (pyStrOf v)))) =
          Option.none →
        standardize_conclusao v = .str []) ∧
      ((removeChar '%' (pyStrip (pyStrOf v))).contains ',' = false →
        pyFloat? (removeChar '%' (pyStrip (pyStrOf v))) = Option.none →
        standardize_conclusao v = .str [])) ∧
    (∀ v, isNullLike v = false →
      pyFloat? (currencySepFix (currencyCleaned (pyStrOf v))) = Option.none →
      standardize_currency v = .str []) ∧
    (∀ ts : PyString, ts.contains ':' = false →
      pyFloat? (mapChar ',' '.' ts) = Option.none → hoursParse ts = .null) ∧
    (∀ v, pdIsna v = false → v ≠ .str [] →
      hoursParse (stripQuotes (pyStrip (pyStrOf v))) = .null →
      convert_to_hours v = .null) ∧
    (∀ v, isNullLike v = false →
      statusMapping.lookup (removeAccents (pyLower (pyStrip (pyStrOf v)))) =
        Option.none →
      standardize_status v = .str (removeAccents (pyLower (pyStrip (pyStrOf v))))) ∧
    (∀ v, isNullLike v = false →
      pyStrip (pyStrOf v) ≠ "Sim".toList →
      pyStrip (pyStrOf v) ≠ "Não".toList →
      pyLower (pyStrip (pyStrOf v)) ≠ "sim".toList →
      pyLower (pyStrip (pyStrOf v)) ≠ "não".toList →
      pyLower (pyStrip (pyStrOf v)) ≠ "nao".toList →
      pyLower (pyStrip (pyStrOf v)) ≠ "s".toList →
      pyLower (pyStrip (pyStrOf v)) ≠ "n".toList →
      standardize_approval v = .str (pyStrip (pyStrOf v))) ∧
    (∀ v, isNullLike v = false →
      pyStrip (pyStrOf v) ≠ "Híbrido".toList →
      pyStrip (pyStrOf v) ≠ "Sim".toList →
      pyStrip (pyStrOf v) ≠ "Não".toList →
      pyLower (pyStrip (pyStrOf v)) ≠ "sim".toList →
      pyLower (pyStrip (pyStrOf v)) ≠ "não".toList →
      pyLower (pyStrip (pyStrOf v)) ≠ "nao".toList →
      pyLower (pyStrip (pyStrOf v)) ≠ "híbrido".toList →
      standardize_remote v = .str (pyStrip (pyStrOf v))) := by
  refine ⟨?_, ?_, ?_, ?_, ?_, ?_, ?_, ?_⟩
  · intro v hnull htry
    unfold standardize_date
    rw [hnull, htry]
    rfl
  · intro v hnull
    constructor
    · intro hcomma hparse
      unfold standardize_conclusao
      rw [hnull, hcomma, hparse]
      rfl
    · intro hcomma hparse
      unfold standardize_conclusao
      rw [hnull, hcomma, hparse]
      rfl
  · intro v hnull hparse
    unfold standardize_currency
    rw [hnull, hparse]
    rfl
  · intro ts hcolon hparse
    unfold hoursParse hoursDecimalBranch
    rw [hcolon, hparse]
    rfl
  · intro v hna hne hparse
    unfold convert_to_hours
    rw [hna, hparse]
    simp [hne]
  · intro v hnull hlook
    unfold standardize_status statusLookup
    rw [hnull, hlook]
    rfl
  · intro v hnull h1 h2 h3 h4 h5 h6 h7
    unfold standardize_approval
    rw [hnull]
    show approvalBranches (pyStrip (pyStrOf v)) = .str (pyStrip (pyStrOf v))
    unfold approvalBranches
    rw [if_neg h1, if_neg h2, if_neg h3,
      if_neg (fun h => h.elim h4 h5), if_neg h6, if_neg h7]
  · intro v hnull h1 h2 h3 h4 h5 h6 h7
    unfold standardize_remote
    rw [hnull]
    show remoteBranches (pyStrip (pyStrOf v)) = .str (pyStrip (pyStrOf v))
    unfold remoteBranches
    rw [if_neg h1, if_neg h2, if_neg h3, if_neg h4,
      if_neg (fun h => h.elim h5 h6), if_neg h7]

/-- C7 (witness): the fallbacks on the unparseable input "abc". -/
theorem C7_fallback_values_witness :
    standardize_date (.str ['a', 'b', 'c']) = .str [] ∧
    standardize_conclusao (.str ['a', 'b', 'c']) = .str [] ∧
    standardize_currency (.str ['a', 'b', 'c']) = .str [] ∧
    hoursParse ['a', 'b', 'c'] = .null ∧
    convert_to_hours (.str ['a', 'b', 'c']) = .null ∧
    standardize_status (.str ['a', 'b', 'c']) = .str ['a', 'b', 'c'] ∧
    standardize_approval (.str ['a', 'b', 'c']) = .str ['a', 'b', 'c'] ∧
    standardize_remote (.str ['a', 'b', 'c']) = .str ['a', 'b', 'c'] :=
  ⟨C7_fallback_values.1 _ (by decide) (by decide),
   (C7_fallback_values.2.1 _ (by decide)).2 (by decide) (by decide),
   C7_fallback_values.2.2.1 _ (by decide) (by decide),
   C7_fallback_values.2.2.2.1 _ (by decide) (by decide),
   C7_fallback_values.2.2.2.2.1 _ (by decide) (by decide) (by decide),
   C7_fallback_values.2.2.2.2.2.1 _ (by decide) (by decide),
   C7_fallback_values.2.2.2.2.2.2.1 _ (by decide) (by decide) (by decide)
     (by decide) (by decide) (by decide) (by decide) (by decide),
   C7_fallback_values.2.2.2.2.2.2.2 _ (by decide) (by decide) (by decide)
     (by decide) (by decide) (by decide) (by decide) (by decide)⟩

/-- C8 (amended): when every joined row carries a status and rows sharing a
project identifier agree on it, the per-status distinct-project counts of
calculate_kpis sum to total_projects, the number of distinct project
identifiers. -/
theorem C8_status_partition (df : List KpiRow)
    (hsome : ∀ r ∈ df, r.status ≠ Option.none)
    (hcons : ∀ r ∈ df, ∀ r2 ∈ df, r.project_id = r2.project_id →
      r.status = r2.status) :
    (((calculate_kpis df).status_counts).map (·.2)).sum =
      (calculate_kpis df).total_projects := by
  show ((statusCounts df).map (·.2)).sum = nuniquePids df
  have hmap : ((statusCounts df).map (·.2)) =
      (df.filterMap (·.status)).dedup.map
        (fun st => nuniquePids (df.filter (fun r => r.status = some st))) := by
    unfold statusCounts
    rw [List.map_map]
    rfl
  have hsum : ∑ st ∈ (df.filterMap (·.status)).toFinset,
      nuniquePids (df.filter (fun r => r.status = some st)) =
      ((df.filterMap (·.status)).dedup.map
        (fun st => nuniquePids (df.filter (fun r => r.status = some st)))).sum := rfl
  rw [hmap, ← hsum, nuniquePids_card df]
  have hT : ∀ p ∈ (df.map (·.project_id)).toFinset,
      statusOfPid df p ∈ (df.filterMap (·.status)).toFinset := by
    intro p hp
    rw [List.mem_toFinset] at hp
    obtain ⟨r0, h0, hmem, hpid⟩ := find?_pid_mem hp
    cases hst0 : r0.status with
    | none => exact absurd hst0 (hsome r0 hmem)
    | some st0 =>
      have hsp : statusOfPid df p = st0 := by
        unfold statusOfPid
        rw [h0]
        simp [hst0]
      rw [hsp, List.mem_toFinset, List.mem_filterMap]
      exact ⟨r0, hmem, hst0⟩
  have hfiber : ∀ st ∈ (df.filterMap (·.status)).toFinset,
      ((df.filter (fun r => r.status = some st)).map (·.project_id)).toFinset =
        (df.map (·.project_id)).toFinset.filter
          (fun p => statusOfPid df p = st) := by
    intro st _
    ext p
    rw [Finset.mem_filter, List.mem_toFinset, List.mem_toFinset]
    constructor
    · intro hp
      rcases List.mem_map.mp hp with ⟨r, hr, e⟩
      rw [List.mem_filter] at hr
      obtain ⟨hrdf, hrst⟩ := hr
      have hrst2 : r.status = some st := by simpa using hrst
      subst e
      exact ⟨List.mem_map.mpr ⟨r, hrdf, rfl⟩,
        statusOfPid_of_mem hcons hrdf hrst2⟩
    · rintro ⟨hp, hstp⟩
      rcases List.mem_map.mp hp with ⟨r, hr, e⟩
      subst e
      cases hstr : r.status with
      | none => exact absurd hstr (hsome r hr)
      | some st1 =>
        have hsp := statusOfPid_of_mem hcons hr hstr
        rw [hsp] at hstp
        subst hstp
        exact List.mem_map.mpr ⟨r, List.mem_filter.mpr ⟨hr, by simp [hstr]⟩, rfl⟩
  calc ∑ st ∈ (df.filterMap (·.status)).toFinset,
        nuniquePids (df.filter (fun r => r.status = some st))
      = ∑ st ∈ (df.filterMap (·.status)).toFinset,
          ((df.map (·.project_id)).toFinset.filter
            (fun p => statusOfPid df p = st)).card := by
        apply Finset.sum_congr rfl
        intro st hst
        rw [nuniquePids_card, hfiber st hst]
    _ = (df.map (·.project_id)).toFinset.card :=
        (Finset.card_eq_sum_card_fiberwise hT).symm

/-- C8 (witness): the partition identity on a one-row table. -/
theorem C8_status_partition_witness :
    (((calculate_kpis [(⟨['p'], some ['s'], Option.none, 0, 0⟩ : KpiRow)]).status_counts).map
        (·.2)).sum =
      (calculate_kpis [(⟨['p'], some ['s'], Option.none, 0, 0⟩ : KpiRow)]).total_projects :=
  C8_status_partition _ (by decide) (by decide)

/-- C9 (amended): idempotence holds for each normalizer away from the
re-ingestion traps: date and percentage re-normalize unchanged
unconditionally; priority, status, approval and remote re-normalize
unchanged whenever the produced string does not lower to a null sentinel;
duration re-normalizes unchanged whenever the produced value is not the
float NaN (which pd.isna sends back to the null fallback); currency
additionally needs the produced float's printed form to be plain decimal
notation (NonScientific), since the symbol filter would strip the exponent
marker of a scientific-notation rendering on re-ingestion. -/
theorem C9_conditional_idempotence :
    (∀ v, standardize_date (standardize_date v) = standardize_date v) ∧
    (∀ v, standardize_conclusao (standardize_conclusao v) =
      standardize_conclusao v) ∧
    (∀ v, NotSentinelOut (standardize_prioridade v) →
      standardize_prioridade (standardize_prioridade v) =
        standardize_prioridade v) ∧
    (∀ v, NotSentinelOut (standardize_status v) →
      standardize_status (standardize_status v) = standardize_status v) ∧
    (∀ v, NotSentinelOut (standardize_approval v) →
      standardize_approval (standardize_approval v) = standardize_approval v) ∧
    (∀ v, NotSentinelOut (standardize_remote v) →
      standardize_remote (standardize_remote v) = standardize_remote v) ∧
    (∀ v, (∀ x, standardize_currency v = .num x → x ≠ .nan ∧ NonScientific x) →
      standardize_currency (standardize_currency v) = standardize_currency v) ∧
    (∀ v, (∀ x, convert_to_hours v = .num x → x ≠ .nan) →
      convert_to_hours (convert_to_hours v) = convert_to_hours v) :=
  ⟨standardize_date_idem, conclusao_idem, prioridade_idem, status_idem,
   approval_idem, remote_idem, currency_idem, hours_idem⟩

/-- C9 (witness): the conditional idempotence applied at concrete inputs
(" Alta", "ok", "yes", "maybe", "1.5" and "2:30"). -/
theorem C9_conditional_idempotence_witness :
    standardize_prioridade (standardize_prioridade
      (.str [' ', 'A', 'l', 't', 'a'])) =
      standardize_prioridade (.str [' ', 'A', 'l', 't', 'a']) ∧
    standardize_status (standardize_status (.str ['o', 'k'])) =
      standardize_status (.str ['o', 'k']) ∧
    standardize_approval (standardize_approval (.str ['y', 'e', 's'])) =
      standardize_approval (.str ['y', 'e', 's']) ∧
    standardize_remote (standardize_remote (.str ['m', 'a', 'y', 'b', 'e'])) =
      standardize_remote (.str ['m', 'a', 'y', 'b', 'e']) ∧
    standardize_currency (standardize_currency (.str ['1', '.', '5'])) =
      standardize_currency (.str ['1', '.', '5']) ∧
    convert_to_hours (convert_to_hours (.str ['2', ':', '3', '0'])) =
      convert_to_hours (.str ['2', ':', '3', '0']) :=
  ⟨C9_conditional_idempotence.2.2.1 _ (by
      intro s hs
      have he : standardize_prioridade (.str [' ', 'A', 'l', 't', 'a']) =
          .str ['a', 'l', 't', 'a'] := by decide
      rw [he] at hs
      cases hs
      decide),
   C9_conditional_idempotence.2.2.2.1 _ (by
      intro s hs
      have he : standardize_status (.str ['o', 'k']) = .str ['o', 'k'] := by decide
      rw [he] at hs
      cases hs
      decide),
   C9_conditional_idempotence.2.2.2.2.1 _ (by
      intro s hs
      have he : standardize_approval (.str ['y', 'e', 's']) =
          .str ['y', 'e', 's'] := by decide
      rw [he] at hs
      cases hs
      decide),
   C9_conditional_idempotence.2.2.2.2.2.1 _ (by
      intro s hs
      have he : standardize_remote (.str ['m', 'a', 'y', 'b', 'e']) =
          .str ['m', 'a', 'y', 'b', 'e'] := by decide
      rw [he] at hs
      cases hs
      decide),
   C9_conditional_idempotence.2.2.2.2.2.2.1 _ (by
      intro x hx
      have he : standardize_currency (.str ['1', '.', '5']) =
          .num (.dec 15 1) := by decide
      rw [he] at hx
      cases hx
      exact ⟨by decide, by decide, Or.inr (by decide)⟩),
   C9_conditional_idempotence.2.2.2.2.2.2.2 _ (by
      intro x hx
      have he : convert_to_hours (.str ['2', ':', '3', '0']) =
          .num (.dec 25 1) := by decide
      rw [he] at hx
      cases hx
      decide)⟩

end Mittu
